import Mathlib

/-!
Verification of the order/payment reconciliation core of a dairy-delivery
ledger application.

Money amounts and quantities are embedded as exact rationals (`ℚ`): the
source operates on JS numbers with `+`, `-`, `min` and comparisons only, and
the specification's guarantees are stated up to the numeric precision of the
amount type.  Creation timestamps and calendar dates are embedded as natural
numbers (`new Date(x).getTime()` on ISO strings is monotone in the calendar
day).  Record-keyed JS objects are embedded as lists that preserve insertion
order, matching JS object key ordering for non-index string keys.
-/

namespace JayGoga

/-- A line item of a daily order (`OrderItem` in `types.ts`, as used by the
pages; `price` and `total` are the unit-price snapshot and the line total). -/
structure OrderItem where
  product_id : String
  product_name : String
  quantity : ℚ
  unit : String
  price : ℚ
  total : ℚ
deriving DecidableEq, Repr

/-- A daily order row (`DailyOrder`): see the `daily_orders` table of the
schema migration and its uses.  `amount_paid` is stored as a number that the
code reads through `(o.amount_paid || 0)`; we embed the read value. -/
structure DailyOrder where
  id : String
  customer_id : String
  customer_name : String
  date : Nat
  items : List OrderItem
  total_amount : ℚ
  amount_paid : ℚ
  status : String
  created_at : Nat
deriving DecidableEq, Repr

/-- Outstanding balance of one order: `o.total_amount - (o.amount_paid || 0)`. -/
def balanceOf (o : DailyOrder) : ℚ := o.total_amount - o.amount_paid

/-- Day-group total: `summary.totalAmount`, accumulated with
`acc[date].totalAmount += order.total_amount` (CustomerDetail). -/
def groupTotalAmount (orders : List DailyOrder) : ℚ :=
  (orders.map (·.total_amount)).sum

/-- Day-group paid total: `summary.totalPaid`, accumulated with
`acc[date].totalPaid += order.amount_paid || 0` (CustomerDetail). -/
def groupTotalPaid (orders : List DailyOrder) : ℚ :=
  (orders.map (·.amount_paid)).sum

/-- `summary.balance = summary.totalAmount - summary.totalPaid`. -/
def groupBalance (orders : List DailyOrder) : ℚ :=
  groupTotalAmount orders - groupTotalPaid orders

/-- One entry of the `updates` array built by `handleSavePayment`:
`{ orderId: string, newAmountPaid: number }`. -/
structure Update where
  orderId : String
  newAmountPaid : ℚ
deriving DecidableEq, Repr

/-- `handleSavePayment` line 147-149: orders of the day with positive
outstanding balance, sorted ascending by creation time
(`.filter(o => (o.total_amount - (o.amount_paid || 0)) > 0)`
 `.sort((a, b) => created_at(a) - created_at(b))`, a stable sort). -/
def pendingOrders (orders : List DailyOrder) : List DailyOrder :=
  List.insertionSort (fun a b => a.created_at ≤ b.created_at)
    (orders.filter (fun o => 0 < balanceOf o))

/-- `handleSavePayment` line 151-157: the allocation loop.  Walks the pending
orders; stops when the remaining amount is `≤ 0`; otherwise pays
`min(amountToPay, orderBalance)` into the order, records the update and
deducts the payment.  Returns the update list and the remaining amount. -/
def allocate (amt : ℚ) : List DailyOrder → List Update × ℚ
  | [] => ([], amt)
  | o :: rest =>
    if amt ≤ 0 then ([], amt)
    else
      let pay := min amt (balanceOf o)
      let res := allocate (amt - pay) rest
      (⟨o.id, o.amount_paid + pay⟩ :: res.1, res.2)

/-- `handleSavePayment` line 159-161: `updates[updates.length - 1].newAmountPaid
+= amountToPay` — add the leftover to the last recorded update. -/
def addToLast (r : ℚ) : List Update → List Update
  | [] => []
  | [u] => [⟨u.orderId, u.newAmountPaid + r⟩]
  | u :: v :: rest => u :: addToLast r (v :: rest)

/-- `handleSavePayment` line 163: most recently created order of the group
(`orders.sort((a,b) => created_at(b) - created_at(a))[0]`; JS `sort` is
stable, so this is the first listed order among those with maximal
`created_at`). -/
def mostRecentOrder (orders : List DailyOrder) : Option DailyOrder :=
  (List.insertionSort (fun a b => b.created_at ≤ a.created_at) orders).head?

/-- `handleSavePayment` line 146-167: the complete update list produced for a
day-group `orders` and a validated payment amount `amt`.  After the
allocation loop, a positive leftover is added to the last update if any
update was recorded, otherwise a single update against the most recently
created order of the group is produced. -/
def savePaymentUpdates (orders : List DailyOrder) (amt : ℚ) : List Update :=
  let res := allocate amt (pendingOrders orders)
  if 0 < res.2 then
    if res.1 = [] then
      match mostRecentOrder orders with
      | some m => [⟨m.id, m.amount_paid + res.2⟩]
      | none => []
    else addToLast res.2 res.1
  else res.1

/-- The amount_paid an order holds after `Promise.all(updates.map(u =>
updateOrder(u.orderId, { amount_paid: u.newAmountPaid })))`: the update
whose `orderId` matches, if any, else the prior value. -/
def newAmountPaid (updates : List Update) (o : DailyOrder) : ℚ :=
  match updates.find? (fun u => u.orderId == o.id) with
  | some u => u.newAmountPaid
  | none => o.amount_paid

/-- amount_paid of order `o` after `handleSavePayment` ran on its day-group
`orders` with validated amount `amt`. -/
def finalPaid (orders : List DailyOrder) (amt : ℚ) (o : DailyOrder) : ℚ :=
  newAmountPaid (savePaymentUpdates orders amt) o

/-- Sum of the pending orders' balances: the maximal amount the allocation
loop itself can absorb. -/
def pendingBalanceSum (orders : List DailyOrder) : ℚ :=
  ((pendingOrders orders).map balanceOf).sum

/-! ### General list-arithmetic helpers -/

lemma sum_map_add {α : Type} (l : List α) (f g : α → ℚ) :
    (l.map fun a => f a + g a).sum = (l.map f).sum + (l.map g).sum := by
  induction l with
  | nil => simp
  | cons a t ih => simp only [List.map_cons, List.sum_cons, ih]; ring

lemma sum_map_sub {α : Type} (l : List α) (f g : α → ℚ) :
    (l.map fun a => f a - g a).sum = (l.map f).sum - (l.map g).sum := by
  induction l with
  | nil => simp
  | cons a t ih => simp only [List.map_cons, List.sum_cons, ih]; ring

lemma sum_split_filter {α : Type} (l : List α) (p : α → Bool) (f : α → ℚ) :
    ((l.filter p).map f).sum + ((l.filter fun a => !p a).map f).sum = (l.map f).sum := by
  have h := ((List.filter_append_perm p l).map f).sum_eq
  simpa using h

lemma sum_map_nonneg {α : Type} (l : List α) (f : α → ℚ) (h : ∀ a ∈ l, 0 ≤ f a) :
    0 ≤ (l.map f).sum := by
  refine List.sum_nonneg ?_
  intro x hx
  obtain ⟨a, ha, rfl⟩ := List.mem_map.1 hx
  exact h a ha

lemma sum_map_nonpos {α : Type} (l : List α) (f : α → ℚ) (h : ∀ a ∈ l, f a ≤ 0) :
    (l.map f).sum ≤ 0 := by
  induction l with
  | nil => simp
  | cons a t ih =>
    simp only [List.map_cons, List.sum_cons]
    have h1 := h a (List.mem_cons_self a t)
    have h2 := ih fun x hx => h x (List.mem_cons_of_mem a hx)
    linarith

lemma sum_map_zero_of {α : Type} (l : List α) (f : α → ℚ) (h : ∀ a ∈ l, f a = 0) :
    (l.map f).sum = 0 := by
  refine List.sum_eq_zero ?_
  intro x hx
  obtain ⟨a, ha, rfl⟩ := List.mem_map.1 hx
  exact h a ha

lemma sum_partition {α κ : Type} [DecidableEq κ] (key : α → κ) (f : α → ℚ) :
    ∀ (ks : List κ) (l : List α), ks.Nodup → (∀ a ∈ l, key a ∈ ks) →
      (ks.map fun k => ((l.filter fun a => key a == k).map f).sum).sum = (l.map f).sum
  | [], l, _, hc => by
    have hl : l = [] := by
      cases l with
      | nil => rfl
      | cons a t => exact absurd (hc a (List.mem_cons_self a t)) (by simp)
    simp [hl]
  | k :: ks, l, hnd, hc => by
    have hknotin : k ∉ ks := (List.nodup_cons.1 hnd).1
    have hnd' : ks.Nodup := (List.nodup_cons.1 hnd).2
    have hsub : ∀ a ∈ l.filter (fun a => !(key a == k)), key a ∈ ks := by
      intro a ha
      have hmem := List.mem_filter.1 ha
      have hne : key a ≠ k := by simpa using hmem.2
      rcases List.mem_cons.1 (hc a hmem.1) with h | h
      · exact absurd h hne
      · exact h
    have ih := sum_partition key f ks (l.filter fun a => !(key a == k)) hnd' hsub
    have hfe : ∀ k' ∈ ks,
        ((l.filter fun a => !(key a == k)).filter fun a => key a == k')
          = l.filter fun a => key a == k' := by
      intro k' hk'
      have hne : k' ≠ k := fun h => hknotin (h ▸ hk')
      rw [List.filter_filter]
      refine List.filter_congr ?_
      intro a _
      by_cases h : key a = k'
      · simp [h, hne]
      · simp [h]
    have hmapeq :
        (ks.map fun k' => ((l.filter fun a => key a == k').map f).sum)
          = ks.map fun k' =>
              (((l.filter fun a => !(key a == k)).filter fun a => key a == k').map f).sum := by
      refine List.map_congr_left ?_
      intro k' hk'
      rw [hfe k' hk']
    simp only [List.map_cons, List.sum_cons, hmapeq, ih]
    exact sum_split_filter l (fun a => key a == k) f

/-! ### Sort-relation typeclass facts -/

instance : IsTotal DailyOrder (fun a b => a.created_at ≤ b.created_at) :=
  ⟨fun a b => Nat.le_total _ _⟩

instance : IsTrans DailyOrder (fun a b => a.created_at ≤ b.created_at) :=
  ⟨fun _ _ _ h h' => Nat.le_trans h h'⟩

instance : IsTotal DailyOrder (fun a b => b.created_at ≤ a.created_at) :=
  ⟨fun a b => (Nat.le_total _ _).symm⟩

instance : IsTrans DailyOrder (fun a b => b.created_at ≤ a.created_at) :=
  ⟨fun _ _ _ h h' => Nat.le_trans h' h⟩

/-! ### Facts about `newAmountPaid` -/

lemma newAmountPaid_nil (o : DailyOrder) : newAmountPaid [] o = o.amount_paid := rfl

lemma newAmountPaid_cons_eq (u : Update) (ups : List Update) (o : DailyOrder)
    (h : u.orderId = o.id) : newAmountPaid (u :: ups) o = u.newAmountPaid := by
  have hb : (u.orderId == o.id) = true := by simpa using h
  simp [newAmountPaid, List.find?, hb]

lemma newAmountPaid_cons_ne (u : Update) (ups : List Update) (o : DailyOrder)
    (h : u.orderId ≠ o.id) : newAmountPaid (u :: ups) o = newAmountPaid ups o := by
  have hb : (u.orderId == o.id) = false := by simpa using h
  simp [newAmountPaid, List.find?, hb]

lemma id_mem_map_of_mem {l : List DailyOrder} {o : DailyOrder} (h : o ∈ l) :
    o.id ∈ l.map (·.id) :=
  List.mem_map_of_mem _ h

lemma newAmountPaid_not_mem (ups : List Update) (o : DailyOrder)
    (h : o.id ∉ ups.map (·.orderId)) : newAmountPaid ups o = o.amount_paid := by
  induction ups with
  | nil => rfl
  | cons u t ih =>
    have h1 : u.orderId ≠ o.id := by
      intro he
      exact h (by simp [← he])
    rw [newAmountPaid_cons_ne u t o h1]
    exact ih fun hm => h (by simp [List.mem_cons]; right; simpa using hm)

/-! ### Facts about the allocation loop -/

lemma allocate_ids_sub (l : List DailyOrder) :
    ∀ amt, ∀ u ∈ (allocate amt l).1, u.orderId ∈ l.map (·.id) := by
  induction l with
  | nil => intro amt u hu; simp [allocate] at hu
  | cons o rest ih =>
    intro amt u hu
    by_cases h : amt ≤ 0
    · simp [allocate, h] at hu
    · simp only [allocate, if_neg h] at hu
      rcases List.mem_cons.1 hu with rfl | hu'
      · simp
      · simpa using Or.inr (by simpa using ih _ u hu')

lemma allocate_src (l : List DailyOrder) (hbal : ∀ o ∈ l, 0 < balanceOf o) :
    ∀ amt, ∀ u ∈ (allocate amt l).1, ∃ o, o ∈ l ∧ u.orderId = o.id ∧
      o.amount_paid ≤ u.newAmountPaid ∧ u.newAmountPaid ≤ o.total_amount := by
  induction l with
  | nil => intro amt u hu; simp [allocate] at hu
  | cons o rest ih =>
    intro amt u hu
    by_cases h : amt ≤ 0
    · simp [allocate, h] at hu
    · simp only [allocate, if_neg h] at hu
      rcases List.mem_cons.1 hu with rfl | hu'
      · refine ⟨o, List.mem_cons_self o rest, rfl, ?_, ?_⟩
        · have h0 : 0 < balanceOf o := hbal o (List.mem_cons_self o rest)
          have hmin : 0 ≤ min amt (balanceOf o) := le_min (not_le.1 h).le h0.le
          simp only [Update.newAmountPaid]
          linarith
        · have hmin : min amt (balanceOf o) ≤ balanceOf o := min_le_right _ _
          simp only [Update.newAmountPaid, balanceOf] at hmin ⊢
          linarith
      · obtain ⟨o', ho', hid, hle, hub⟩ :=
          ih (fun x hx => hbal x (List.mem_cons_of_mem o hx)) _ u hu'
        exact ⟨o', List.mem_cons_of_mem o ho', hid, hle, hub⟩

lemma allocate_ids_nodup (l : List DailyOrder) (hnd : (l.map (·.id)).Nodup) :
    ∀ amt, ((allocate amt l).1.map (·.orderId)).Nodup := by
  induction l with
  | nil => intro amt; simp [allocate]
  | cons o rest ih =>
    intro amt
    by_cases h : amt ≤ 0
    · simp [allocate, h]
    · simp only [allocate, if_neg h, List.map_cons]
      have hnd' : (rest.map (·.id)).Nodup := (List.nodup_cons.1 hnd).2
      refine List.nodup_cons.2 ⟨?_, ih hnd' _⟩
      intro hmem
      obtain ⟨u, hu, huid⟩ := List.mem_map.1 hmem
      have : u.orderId ∈ rest.map (·.id) := allocate_ids_sub rest _ u hu
      rw [huid] at this
      exact (List.nodup_cons.1 hnd).1 this

lemma allocate_rem_nonneg (l : List DailyOrder) :
    ∀ amt, 0 ≤ amt → 0 ≤ (allocate amt l).2 := by
  induction l with
  | nil => intro amt h; simpa [allocate] using h
  | cons o rest ih =>
    intro amt hamt
    by_cases h : amt ≤ 0
    · simpa [allocate, h] using hamt
    · simp only [allocate, if_neg h]
      exact ih _ (by have := min_le_left amt (balanceOf o); linarith)

lemma allocate_rem_le (l : List DailyOrder) :
    ∀ amt, (∀ o ∈ l, 0 < balanceOf o) → amt ≤ (l.map balanceOf).sum →
      (allocate amt l).2 ≤ 0 := by
  induction l with
  | nil => intro amt _ hle; simpa [allocate] using hle
  | cons o rest ih =>
    intro amt hbal hle
    by_cases h : amt ≤ 0
    · simpa [allocate, h] using h
    · simp only [allocate, if_neg h]
      refine ih _ (fun x hx => hbal x (List.mem_cons_of_mem o hx)) ?_
      have hrest : 0 ≤ (rest.map balanceOf).sum :=
        sum_map_nonneg rest balanceOf fun x hx =>
          (hbal x (List.mem_cons_of_mem o hx)).le
      simp only [List.map_cons, List.sum_cons] at hle
      rcases le_total amt (balanceOf o) with hc | hc
      · rw [min_eq_left hc]; linarith
      · rw [min_eq_right hc]; linarith

lemma allocate_full (l : List DailyOrder) :
    ∀ amt, (∀ o ∈ l, 0 < balanceOf o) → (l.map balanceOf).sum < amt →
      (allocate amt l).1 = l.map (fun o => ⟨o.id, o.total_amount⟩) ∧
      (allocate amt l).2 = amt - (l.map balanceOf).sum := by
  induction l with
  | nil => intro amt _ _; simp [allocate]
  | cons o rest ih =>
    intro amt hbal hlt
    have h0 : 0 < balanceOf o := hbal o (List.mem_cons_self o rest)
    have hrest : 0 ≤ (rest.map balanceOf).sum :=
      sum_map_nonneg rest balanceOf fun x hx =>
        (hbal x (List.mem_cons_of_mem o hx)).le
    simp only [List.map_cons, List.sum_cons] at hlt
    have hpos : ¬ amt ≤ 0 := by push_neg; linarith
    have hpay : min amt (balanceOf o) = balanceOf o :=
      min_eq_right (by linarith)
    have ihres := ih (amt - balanceOf o)
      (fun x hx => hbal x (List.mem_cons_of_mem o hx)) (by linarith)
    simp only [allocate, if_neg hpos, hpay, List.map_cons]
    refine ⟨?_, ?_⟩
    · rw [ihres.1]
      have hu : (⟨o.id, o.amount_paid + balanceOf o⟩ : Update) = ⟨o.id, o.total_amount⟩ := by
        simp only [Update.mk.injEq, balanceOf]
        exact ⟨trivial, by ring⟩
      rw [hu]
    · rw [ihres.2]
      simp only [List.sum_cons]
      ring

lemma allocate_ne_nil (l : List DailyOrder) (amt : ℚ) (hamt : 0 < amt) (hl : l ≠ []) :
    (allocate amt l).1 ≠ [] := by
  cases l with
  | nil => exact absurd rfl hl
  | cons o rest =>
    have h : ¬ amt ≤ 0 := not_le.2 hamt
    simp [allocate, h]

lemma allocate_deltaSum (l : List DailyOrder) :
    ∀ amt, (l.map (·.id)).Nodup →
      (l.map fun o => newAmountPaid (allocate amt l).1 o - o.amount_paid).sum
        = amt - (allocate amt l).2 := by
  induction l with
  | nil => intro amt _; simp [allocate]
  | cons o rest ih =>
    intro amt hnd
    have hnotin : o.id ∉ rest.map (·.id) := (List.nodup_cons.1 hnd).1
    have hnd' : (rest.map (·.id)).Nodup := (List.nodup_cons.1 hnd).2
    by_cases h : amt ≤ 0
    · have : ∀ x ∈ o :: rest,
          newAmountPaid (allocate amt (o :: rest)).1 x - x.amount_paid = 0 := by
        intro x _
        simp [allocate, h, newAmountPaid_nil]
      rw [sum_map_zero_of _ _ this]
      simp [allocate, h]
    · simp only [allocate, if_neg h, List.map_cons, List.sum_cons]
      set pay := min amt (balanceOf o) with hpay
      set u0 : Update := ⟨o.id, o.amount_paid + pay⟩ with hu0
      have hhead : newAmountPaid (u0 :: (allocate (amt - pay) rest).1) o - o.amount_paid
          = pay := by
        rw [newAmountPaid_cons_eq u0 _ o rfl]
        simp [hu0]
      have htail : ∀ x ∈ rest,
          newAmountPaid (u0 :: (allocate (amt - pay) rest).1) x - x.amount_paid
            = newAmountPaid (allocate (amt - pay) rest).1 x - x.amount_paid := by
        intro x hx
        have hne : u0.orderId ≠ x.id := by
          intro he
          have he' : o.id = x.id := he
          exact hnotin (he' ▸ id_mem_map_of_mem hx)
        rw [newAmountPaid_cons_ne u0 _ x hne]
      rw [hhead, List.map_congr_left htail, ih _ hnd']
      ring

lemma allocate_get (l : List DailyOrder) :
    ∀ amt, (l.map (·.id)).Nodup → (∀ o ∈ l, 0 < balanceOf o) →
      ∀ i (h : i < l.length),
        newAmountPaid (allocate amt l).1 (l.get ⟨i, h⟩)
          = (l.get ⟨i, h⟩).amount_paid
            + min (balanceOf (l.get ⟨i, h⟩))
                (max 0 (amt - ((l.take i).map balanceOf).sum)) := by
  induction l with
  | nil => intro amt _ _ i h; exact absurd h (by simp)
  | cons o rest ih =>
    intro amt hnd hbal i h
    have hnotin : o.id ∉ rest.map (·.id) := (List.nodup_cons.1 hnd).1
    have hnd' : (rest.map (·.id)).Nodup := (List.nodup_cons.1 hnd).2
    have hbal' : ∀ x ∈ rest, 0 < balanceOf x :=
      fun x hx => hbal x (List.mem_cons_of_mem o hx)
    have htakepos : ∀ j, 0 ≤ ((rest.take j).map balanceOf).sum := by
      intro j
      exact sum_map_nonneg _ _ fun x hx => (hbal' x (List.mem_of_mem_take hx)).le
    by_cases hle : amt ≤ 0
    · have hget : newAmountPaid (allocate amt (o :: rest)).1 ((o :: rest).get ⟨i, h⟩)
          = ((o :: rest).get ⟨i, h⟩).amount_paid := by
        simp [allocate, hle, newAmountPaid_nil]
      rw [hget]
      have hS : 0 ≤ (((o :: rest).take i).map balanceOf).sum := by
        exact sum_map_nonneg _ _ fun x hx =>
          (hbal x (List.mem_of_mem_take hx)).le
      have hmax : max 0 (amt - (((o :: rest).take i).map balanceOf).sum) = 0 :=
        max_eq_left (by linarith)
      rw [hmax]
      have hbali : 0 < balanceOf ((o :: rest).get ⟨i, h⟩) :=
        hbal _ (List.get_mem (o :: rest) i h)
      rw [min_eq_right hbali.le]
      ring
    · simp only [allocate, if_neg hle]
      set pay := min amt (balanceOf o) with hpay
      set u0 : Update := ⟨o.id, o.amount_paid + pay⟩ with hu0
      cases i with
      | zero =>
        have hget0 : (o :: rest).get ⟨0, h⟩ = o := rfl
        rw [hget0, newAmountPaid_cons_eq u0 _ o rfl]
        have hmax : max 0 (amt - (((o :: rest).take 0).map balanceOf).sum) = amt := by
          simp
          linarith [not_le.1 hle]
        rw [hmax]
        simp only [hu0, hpay]
        rw [min_comm]
      | succ i =>
        have hlen : i < rest.length := by simpa using h
        have hgets : (o :: rest).get ⟨i + 1, h⟩ = rest.get ⟨i, hlen⟩ := rfl
        rw [hgets]
        have hne : u0.orderId ≠ (rest.get ⟨i, hlen⟩).id := by
          intro he
          have he' : o.id = (rest.get ⟨i, hlen⟩).id := he
          exact hnotin (he' ▸ id_mem_map_of_mem (List.get_mem rest i hlen))
        rw [newAmountPaid_cons_ne u0 _ _ hne]
        rw [ih (amt - pay) hnd' hbal' i hlen]
        congr 1
        congr 1
        have htake : (((o :: rest).take (i + 1)).map balanceOf).sum
            = balanceOf o + ((rest.take i).map balanceOf).sum := by
          simp
        rw [htake]
        have hS := htakepos i
        rcases le_total amt (balanceOf o) with hc | hc
        · have h1 : pay = amt := min_eq_left hc
          rw [h1]
          have h2 : max 0 (amt - amt - ((rest.take i).map balanceOf).sum) = 0 :=
            max_eq_left (by linarith)
          have h3 : max 0 (amt - (balanceOf o + ((rest.take i).map balanceOf).sum)) = 0 :=
            max_eq_left (by linarith)
          rw [h2, h3]
        · have h1 : pay = balanceOf o := min_eq_right hc
          rw [h1]
          ring_nf

lemma newAmountPaid_map_self (l : List DailyOrder) (f : DailyOrder → ℚ)
    (hnd : (l.map (·.id)).Nodup) :
    ∀ o ∈ l, newAmountPaid (l.map fun x => ⟨x.id, f x⟩) o = f o := by
  induction l with
  | nil => intro o ho; exact absurd ho (by simp)
  | cons a rest ih =>
    intro o ho
    have hnotin : a.id ∉ rest.map (·.id) := (List.nodup_cons.1 hnd).1
    have hnd' : (rest.map (·.id)).Nodup := (List.nodup_cons.1 hnd).2
    rcases List.mem_cons.1 ho with rfl | ho'
    · exact newAmountPaid_cons_eq _ _ o rfl
    · have hne : (⟨a.id, f a⟩ : Update).orderId ≠ o.id := by
        intro he
        have he' : a.id = o.id := he
        exact hnotin (he' ▸ id_mem_map_of_mem ho')
      rw [List.map_cons, newAmountPaid_cons_ne _ _ o hne]
      exact ih hnd' o ho'

/-! ### Facts about `addToLast` -/

lemma addToLast_ids (r : ℚ) :
    ∀ ups : List Update, (addToLast r ups).map (·.orderId) = ups.map (·.orderId)
  | [] => rfl
  | [_] => rfl
  | u :: v :: rest => by
    have ih := addToLast_ids r (v :: rest)
    simp only [addToLast, List.map_cons] at ih ⊢
    rw [ih]

lemma mem_addToLast (r : ℚ) :
    ∀ ups : List Update, ∀ u' ∈ addToLast r ups, ∃ u ∈ ups,
      u'.orderId = u.orderId ∧
      (u'.newAmountPaid = u.newAmountPaid ∨ u'.newAmountPaid = u.newAmountPaid + r)
  | [], u', hu' => by simp [addToLast] at hu'
  | [u], u', hu' => by
    simp only [addToLast, List.mem_singleton] at hu'
    subst hu'
    exact ⟨u, List.mem_singleton_self u, rfl, Or.inr rfl⟩
  | u :: v :: rest, u', hu' => by
    rcases List.mem_cons.1 hu' with rfl | hu''
    · exact ⟨u', List.mem_cons_self _ _, rfl, Or.inl rfl⟩
    · obtain ⟨w, hw, hid, hv⟩ := mem_addToLast r (v :: rest) u' hu''
      exact ⟨w, List.mem_cons_of_mem u hw, hid, hv⟩

lemma newAmountPaid_addToLast (r : ℚ) :
    ∀ (ups : List Update) (hne : ups ≠ []), (ups.map (·.orderId)).Nodup →
      ∀ o : DailyOrder,
        newAmountPaid (addToLast r ups) o
          = newAmountPaid ups o
            + (if (ups.getLast hne).orderId = o.id then r else 0)
  | [], hne, _, _ => absurd rfl hne
  | [u], _, _, o => by
    by_cases h : u.orderId = o.id
    · rw [show addToLast r [u] = [⟨u.orderId, u.newAmountPaid + r⟩] from rfl]
      rw [newAmountPaid_cons_eq (⟨u.orderId, u.newAmountPaid + r⟩ : Update) [] o h,
        newAmountPaid_cons_eq u [] o h]
      simp [List.getLast, h]
    · rw [show addToLast r [u] = [⟨u.orderId, u.newAmountPaid + r⟩] from rfl]
      rw [newAmountPaid_cons_ne (⟨u.orderId, u.newAmountPaid + r⟩ : Update) [] o h,
        newAmountPaid_cons_ne u [] o h]
      simp [List.getLast, h]
  | u :: v :: rest, _, hnd, o => by
    have hnotin : u.orderId ∉ (v :: rest).map (·.orderId) := (List.nodup_cons.1 hnd).1
    have hnd' : ((v :: rest).map (·.orderId)).Nodup := (List.nodup_cons.1 hnd).2
    have hcons : addToLast r (u :: v :: rest) = u :: addToLast r (v :: rest) := rfl
    have hlast : (u :: v :: rest).getLast (by simp)
        = (v :: rest).getLast (by simp) := List.getLast_cons (by simp)
    rw [hcons, hlast]
    by_cases h : u.orderId = o.id
    · rw [newAmountPaid_cons_eq u _ o h, newAmountPaid_cons_eq u (v :: rest) o h]
      have hlmem : ((v :: rest).getLast (by simp)).orderId ∈ (v :: rest).map (·.orderId) :=
        List.mem_map_of_mem _ (List.getLast_mem _)
      have hlne : ((v :: rest).getLast (by simp)).orderId ≠ o.id := by
        intro he
        rw [he, ← h] at hlmem
        exact hnotin hlmem
      simp [hlne]
    · rw [newAmountPaid_cons_ne u _ o h, newAmountPaid_cons_ne u (v :: rest) o h]
      exact newAmountPaid_addToLast r (v :: rest) (by simp) hnd' o

/-! ### Facts about `pendingOrders`, `mostRecentOrder` and group sums -/

lemma pendingOrders_perm (orders : List DailyOrder) :
    List.Perm (pendingOrders orders) (orders.filter fun o => 0 < balanceOf o) :=
  List.perm_insertionSort _ _

lemma pendingOrders_sorted (orders : List DailyOrder) :
    (pendingOrders orders).Sorted (fun a b => a.created_at ≤ b.created_at) :=
  List.sorted_insertionSort _ _

lemma mem_pendingOrders (orders : List DailyOrder) (o : DailyOrder) :
    o ∈ pendingOrders orders ↔ o ∈ orders ∧ 0 < balanceOf o := by
  rw [(pendingOrders_perm orders).mem_iff, List.mem_filter]
  simp

lemma pendingOrders_pos (orders : List DailyOrder) :
    ∀ o ∈ pendingOrders orders, 0 < balanceOf o :=
  fun o ho => ((mem_pendingOrders orders o).1 ho).2

lemma pendingOrders_sub (orders : List DailyOrder) :
    ∀ o ∈ pendingOrders orders, o ∈ orders :=
  fun o ho => ((mem_pendingOrders orders o).1 ho).1

lemma pendingOrders_ids_nodup (orders : List DailyOrder)
    (h : (orders.map (·.id)).Nodup) : ((pendingOrders orders).map (·.id)).Nodup := by
  have hfil : ((orders.filter fun o => 0 < balanceOf o).map (·.id)).Nodup :=
    h.sublist ((List.filter_sublist orders).map _)
  exact ((pendingOrders_perm orders).map (·.id)).nodup_iff.2 hfil

lemma pendingOrders_eq_nil (orders : List DailyOrder)
    (h : ∀ o ∈ orders, balanceOf o ≤ 0) : pendingOrders orders = [] := by
  have hfil : orders.filter (fun o => 0 < balanceOf o) = [] := by
    rw [List.filter_eq_nil]
    intro o ho
    simpa using not_lt.2 (h o ho)
  rw [pendingOrders, hfil]
  rfl

lemma pendingOrders_ne_nil (orders : List DailyOrder)
    (h : ∃ o ∈ orders, 0 < balanceOf o) : pendingOrders orders ≠ [] := by
  obtain ⟨o, ho, hbal⟩ := h
  intro hnil
  have : o ∈ pendingOrders orders := (mem_pendingOrders orders o).2 ⟨ho, hbal⟩
  rw [hnil] at this
  exact absurd this (List.not_mem_nil o)

lemma pendingBalanceSum_eq (orders : List DailyOrder) :
    pendingBalanceSum orders
      = ((orders.filter fun o => 0 < balanceOf o).map balanceOf).sum :=
  ((pendingOrders_perm orders).map balanceOf).sum_eq

lemma groupBalance_eq_sum (orders : List DailyOrder) :
    groupBalance orders = (orders.map balanceOf).sum := by
  rw [groupBalance, groupTotalAmount, groupTotalPaid, ← sum_map_sub]
  rfl

lemma groupBalance_le_pendingBalanceSum (orders : List DailyOrder) :
    groupBalance orders ≤ pendingBalanceSum orders := by
  rw [groupBalance_eq_sum, pendingBalanceSum_eq]
  have hsplit := sum_split_filter orders (fun o => 0 < balanceOf o) balanceOf
  have hrest : ((orders.filter fun o => !(0 < balanceOf o : Bool)).map balanceOf).sum ≤ 0 := by
    refine sum_map_nonpos _ _ ?_
    intro o ho
    have := (List.mem_filter.1 ho).2
    simp only [Bool.not_eq_true'] at this
    simpa using of_decide_eq_false this
  linarith

lemma mostRecentOrder_spec (orders : List DailyOrder) (hne : orders ≠ []) :
    ∃ m, mostRecentOrder orders = some m ∧ m ∈ orders ∧
      ∀ o ∈ orders, o.created_at ≤ m.created_at := by
  have hperm : List.Perm
      (List.insertionSort (fun a b => b.created_at ≤ a.created_at) orders) orders :=
    List.perm_insertionSort _ _
  have hsne : List.insertionSort (fun a b => b.created_at ≤ a.created_at) orders ≠ [] := by
    intro h
    apply hne
    have hlen := hperm.length_eq
    rw [h] at hlen
    exact List.length_eq_zero.1 hlen.symm
  obtain ⟨m, t, hmt⟩ := List.exists_cons_of_ne_nil hsne
  refine ⟨m, ?_, ?_, ?_⟩
  · rw [mostRecentOrder, hmt]
    rfl
  · exact hperm.subset (hmt ▸ List.mem_cons_self m t)
  · intro o ho
    have hos : o ∈ List.insertionSort (fun a b => b.created_at ≤ a.created_at) orders :=
      hperm.mem_iff.2 ho
    rw [hmt] at hos
    rcases List.mem_cons.1 hos with rfl | hot
    · exact le_refl _
    · have hsorted : (List.insertionSort
          (fun a b => b.created_at ≤ a.created_at) orders).Sorted
            (fun a b => b.created_at ≤ a.created_at) :=
        List.sorted_insertionSort _ _
      rw [hmt, List.sorted_cons] at hsorted
      exact hsorted.1 o hot

lemma sum_ite_single (orders : List DailyOrder) (hnd : (orders.map (·.id)).Nodup)
    (a : DailyOrder) (ha : a ∈ orders) (g : DailyOrder → ℚ) :
    (orders.map fun o => if a.id = o.id then g o else 0).sum = g a := by
  induction orders with
  | nil => exact absurd ha (List.not_mem_nil a)
  | cons o0 rest ih =>
    have hnotin : o0.id ∉ rest.map (·.id) := (List.nodup_cons.1 hnd).1
    have hnd' : (rest.map (·.id)).Nodup := (List.nodup_cons.1 hnd).2
    rcases List.mem_cons.1 ha with rfl | ha'
    · simp only [List.map_cons, List.sum_cons]
      have hz : ∀ x ∈ rest, (if a.id = x.id then g x else 0) = 0 := by
        intro x hx
        have hne : a.id ≠ x.id := by
          intro he
          exact hnotin (he ▸ id_mem_map_of_mem hx)
        rw [if_neg hne]
      rw [sum_map_zero_of _ _ hz]
      simp
    · have hne : a.id ≠ o0.id := by
        intro he
        exact hnotin (he ▸ id_mem_map_of_mem ha')
      simp only [List.map_cons, List.sum_cons, if_neg hne]
      rw [ih hnd' ha']
      ring

lemma mostRecentOrder_mem {orders : List DailyOrder} {m : DailyOrder}
    (h : mostRecentOrder orders = some m) : m ∈ orders := by
  have hperm : List.Perm
      (List.insertionSort (fun a b => b.created_at ≤ a.created_at) orders) orders :=
    List.perm_insertionSort _ _
  rw [mostRecentOrder] at h
  cases hs : List.insertionSort (fun a b => b.created_at ≤ a.created_at) orders with
  | nil => rw [hs] at h; simp at h
  | cons x t =>
    rw [hs] at h
    have hx : m = x := by simpa using h.symm
    subst hx
    exact (hs ▸ hperm).subset (List.mem_cons_self m t)

/-! ### Case shapes of `savePaymentUpdates` -/

lemma savePaymentUpdates_of_rem_nonpos (orders : List DailyOrder) (amt : ℚ)
    (h : ¬ 0 < (allocate amt (pendingOrders orders)).2) :
    savePaymentUpdates orders amt = (allocate amt (pendingOrders orders)).1 := by
  simp only [savePaymentUpdates]
  rw [if_neg h]

lemma savePaymentUpdates_of_overflow (orders : List DailyOrder) (amt : ℚ)
    (h1 : 0 < (allocate amt (pendingOrders orders)).2)
    (h2 : (allocate amt (pendingOrders orders)).1 ≠ []) :
    savePaymentUpdates orders amt
      = addToLast (allocate amt (pendingOrders orders)).2
          (allocate amt (pendingOrders orders)).1 := by
  simp only [savePaymentUpdates]
  rw [if_pos h1, if_neg h2]

lemma savePaymentUpdates_of_no_pending (orders : List DailyOrder) (amt : ℚ)
    (hamt : 0 < amt) (hpend : pendingOrders orders = [])
    {m : DailyOrder} (hm : mostRecentOrder orders = some m) :
    savePaymentUpdates orders amt = [⟨m.id, m.amount_paid + amt⟩] := by
  simp [savePaymentUpdates, hpend, allocate, hm, hamt]

/-- Orders whose id carries no update keep their amount_paid; the per-order
delta sum over the whole day-group therefore equals the delta sum over the
pending sublist, for any update list whose ids come from the pending list. -/
lemma deltaSum_orders_eq_pending (orders : List DailyOrder)
    (hids : (orders.map (·.id)).Nodup) (ups : List Update)
    (hsub : ∀ u ∈ ups, u.orderId ∈ (pendingOrders orders).map (·.id)) :
    (orders.map fun o => newAmountPaid ups o - o.amount_paid).sum
      = ((pendingOrders orders).map fun o => newAmountPaid ups o - o.amount_paid).sum := by
  have hpersum :
      ((pendingOrders orders).map fun o => newAmountPaid ups o - o.amount_paid).sum
        = ((orders.filter fun o => 0 < balanceOf o).map
            fun o => newAmountPaid ups o - o.amount_paid).sum :=
    ((pendingOrders_perm orders).map _).sum_eq
  have hsplit := sum_split_filter orders (fun o => 0 < balanceOf o)
    (fun o => newAmountPaid ups o - o.amount_paid)
  have hzero : ∀ o ∈ orders.filter (fun o => !(0 < balanceOf o : Bool)),
      newAmountPaid ups o - o.amount_paid = 0 := by
    intro o ho
    obtain ⟨homem, hneg⟩ := List.mem_filter.1 ho
    have hbal : ¬ 0 < balanceOf o := by
      have h2 := hneg
      simp only [Bool.not_eq_true'] at h2
      simpa using of_decide_eq_false h2
    have hnotin : o.id ∉ (pendingOrders orders).map (·.id) := by
      intro hin
      obtain ⟨o', ho', hid⟩ := List.mem_map.1 hin
      have ho'mem := pendingOrders_sub orders o' ho'
      have ho'bal := pendingOrders_pos orders o' ho'
      have heq : o' = o := List.inj_on_of_nodup_map hids ho'mem homem hid
      rw [heq] at ho'bal
      exact hbal ho'bal
    have hnot : o.id ∉ ups.map (·.orderId) := by
      intro hin
      obtain ⟨u, hu, hid⟩ := List.mem_map.1 hin
      have := hsub u hu
      rw [hid] at this
      exact hnotin this
    rw [newAmountPaid_not_mem ups o hnot]
    ring
  have hzs : ((orders.filter fun o => !(0 < balanceOf o : Bool)).map
      fun o => newAmountPaid ups o - o.amount_paid).sum = 0 :=
    sum_map_zero_of _ _ hzero
  rw [hpersum]
  linarith

/-- If each update can be traced to a source order that it does not
shortchange, every order's post-payment amount is at least its prior one. -/
lemma newAmountPaid_ge_of_src (orders : List DailyOrder)
    (hids : (orders.map (·.id)).Nodup) (ups : List Update)
    (hsrc : ∀ u ∈ ups, ∃ o', o' ∈ orders ∧ u.orderId = o'.id ∧
      o'.amount_paid ≤ u.newAmountPaid) :
    ∀ o ∈ orders, o.amount_paid ≤ newAmountPaid ups o := by
  intro o ho
  simp only [newAmountPaid]
  cases hfind : ups.find? (fun u => u.orderId == o.id) with
  | none => exact le_refl _
  | some u =>
    have hu : u ∈ ups := List.mem_of_find?_eq_some hfind
    have hid : u.orderId = o.id := by simpa using List.find?_some hfind
    obtain ⟨o', ho', hid', hle⟩ := hsrc u hu
    have heq : o' = o := List.inj_on_of_nodup_map hids ho' ho (by rw [← hid', hid])
    rw [heq] at hle
    exact hle

/-- If each update can be traced to a source order whose total it does not
exceed, every order within its total stays within its total. -/
lemma newAmountPaid_le_of_src (orders : List DailyOrder)
    (hids : (orders.map (·.id)).Nodup) (ups : List Update)
    (hsrc : ∀ u ∈ ups, ∃ o', o' ∈ orders ∧ u.orderId = o'.id ∧
      u.newAmountPaid ≤ o'.total_amount) :
    ∀ o ∈ orders, o.amount_paid ≤ o.total_amount →
      newAmountPaid ups o ≤ o.total_amount := by
  intro o ho hpt
  simp only [newAmountPaid]
  cases hfind : ups.find? (fun u => u.orderId == o.id) with
  | none => exact hpt
  | some u =>
    have hu : u ∈ ups := List.mem_of_find?_eq_some hfind
    have hid : u.orderId = o.id := by simpa using List.find?_some hfind
    obtain ⟨o', ho', hid', hle⟩ := hsrc u hu
    have heq : o' = o := List.inj_on_of_nodup_map hids ho' ho (by rw [← hid', hid])
    rw [heq] at hle
    exact hle

/-- Every update produced by `handleSavePayment` traces to an order of the
group that it does not shortchange. -/
lemma savePaymentUpdates_src_ge (orders : List DailyOrder) (amt : ℚ) (hamt : 0 < amt) :
    ∀ u ∈ savePaymentUpdates orders amt, ∃ o', o' ∈ orders ∧ u.orderId = o'.id ∧
      o'.amount_paid ≤ u.newAmountPaid := by
  intro u hu
  by_cases hrem : 0 < (allocate amt (pendingOrders orders)).2
  · by_cases hnil : (allocate amt (pendingOrders orders)).1 = []
    · cases hmro : mostRecentOrder orders with
      | none =>
        rw [savePaymentUpdates] at hu
        rw [if_pos hrem, if_pos hnil, hmro] at hu
        exact absurd hu (List.not_mem_nil u)
      | some m =>
        rw [savePaymentUpdates] at hu
        rw [if_pos hrem, if_pos hnil, hmro] at hu
        have hu' : u = ⟨m.id, m.amount_paid + (allocate amt (pendingOrders orders)).2⟩ := by
          simpa using hu
        refine ⟨m, mostRecentOrder_mem hmro, by rw [hu'], ?_⟩
        rw [hu']
        simp only [Update.newAmountPaid]
        linarith
    · rw [savePaymentUpdates_of_overflow orders amt hrem hnil] at hu
      obtain ⟨w, hw, hid, hv⟩ :=
        mem_addToLast (allocate amt (pendingOrders orders)).2 _ u hu
      obtain ⟨o', ho', hid', hle, _⟩ :=
        allocate_src (pendingOrders orders) (pendingOrders_pos orders) amt w hw
      refine ⟨o', pendingOrders_sub orders o' ho', hid.trans hid', ?_⟩
      rcases hv with h | h <;> rw [h]
      · exact hle
      · linarith
  · rw [savePaymentUpdates_of_rem_nonpos orders amt hrem] at hu
    obtain ⟨o', ho', hid, hle, _⟩ :=
      allocate_src (pendingOrders orders) (pendingOrders_pos orders) amt u hu
    exact ⟨o', pendingOrders_sub orders o' ho', hid, hle⟩

/-- Effect of adding the overpayment leftover onto the full-payment update
list: every pending order ends at its total, the last pending order also
receives the leftover. -/
lemma newAmountPaid_addToLast_map (r : ℚ) (l : List DailyOrder)
    (hnd : (l.map (·.id)).Nodup) (hne : l ≠ []) (o : DailyOrder) (ho : o ∈ l) :
    newAmountPaid (addToLast r (l.map fun x => ⟨x.id, x.total_amount⟩)) o
      = o.total_amount + (if (l.getLast hne).id = o.id then r else 0) := by
  have hfne : (l.map fun x => (⟨x.id, x.total_amount⟩ : Update)) ≠ [] := by
    simpa using hne
  have hnd' : ((l.map fun x => (⟨x.id, x.total_amount⟩ : Update)).map (·.orderId)).Nodup := by
    rw [List.map_map]
    exact hnd
  rw [newAmountPaid_addToLast r _ hfne hnd' o]
  rw [newAmountPaid_map_self l (·.total_amount) hnd o ho]
  have hgl : ((l.map fun x => (⟨x.id, x.total_amount⟩ : Update)).getLast hfne).orderId
      = (l.getLast hne).id := by
    rw [List.getLast_map]
  rw [hgl]

/-! ### Concrete orders used by the specification's worked examples -/

/-- First example order: total 100, nothing paid, created at time 1. -/
def exO1 : DailyOrder :=
  ⟨"ord1", "cust", "C", 10, [], 100, 0, "pending", 1⟩

/-- Second example order: total 50, nothing paid, created at time 2 (later). -/
def exO2 : DailyOrder :=
  ⟨"ord2", "cust", "C", 10, [], 50, 0, "pending", 2⟩

/-- The day-group of the specification's allocation examples. -/
def exOrders : List DailyOrder := [exO1, exO2]

/-- A fully settled order (balance 0), created before the example orders. -/
def exO0 : DailyOrder :=
  ⟨"ord0", "cust", "C", 10, [], 50, 50, "pending", 0⟩

/-- A day-group that also contains a settled order. -/
def exOrders3 : List DailyOrder := [exO0, exO1, exO2]

/-! ### Claim theorems for the payment allocator -/

/-- C1: payment conservation — for every non-empty day-group with distinct
order ids and every accepted (positive) payment amount, the sum over all
orders of the group of (new amount_paid − prior amount_paid) produced by
`handleSavePayment` equals the payment amount exactly. -/
theorem payment_conservation (orders : List DailyOrder) (amt : ℚ)
    (hne : orders ≠ []) (hids : (orders.map (·.id)).Nodup) (hamt : 0 < amt) :
    (orders.map fun o => finalPaid orders amt o - o.amount_paid).sum = amt := by
  have hpnd : ((pendingOrders orders).map (·.id)).Nodup :=
    pendingOrders_ids_nodup orders hids
  by_cases hrem : 0 < (allocate amt (pendingOrders orders)).2
  · by_cases hnil : (allocate amt (pendingOrders orders)).1 = []
    · have hpendnil : pendingOrders orders = [] := by
        by_contra hc
        exact allocate_ne_nil (pendingOrders orders) amt hamt hc hnil
      obtain ⟨m, hm, hmmem, _⟩ := mostRecentOrder_spec orders hne
      have hsave := savePaymentUpdates_of_no_pending orders amt hamt hpendnil hm
      have heach : ∀ o ∈ orders,
          finalPaid orders amt o - o.amount_paid
            = (if m.id = o.id then m.amount_paid + amt - o.amount_paid else 0) := by
        intro o _
        rw [finalPaid, hsave]
        by_cases h : m.id = o.id
        · rw [newAmountPaid_cons_eq _ _ o h, if_pos h]
        · rw [newAmountPaid_cons_ne _ _ o h, newAmountPaid_nil, if_neg h]
          ring
      rw [List.map_congr_left heach, sum_ite_single orders hids m hmmem]
      ring
    · have hups_nd := allocate_ids_nodup (pendingOrders orders) hpnd amt
      have hsave := savePaymentUpdates_of_overflow orders amt hrem hnil
      have heach : ∀ o ∈ orders,
          finalPaid orders amt o - o.amount_paid
            = (newAmountPaid (allocate amt (pendingOrders orders)).1 o - o.amount_paid)
              + (if (((allocate amt (pendingOrders orders)).1.getLast hnil).orderId = o.id)
                 then (allocate amt (pendingOrders orders)).2 else 0) := by
        intro o _
        rw [finalPaid, hsave, newAmountPaid_addToLast _ _ hnil hups_nd o]
        ring
      rw [List.map_congr_left heach, sum_map_add]
      have h1 : (orders.map fun o =>
          newAmountPaid (allocate amt (pendingOrders orders)).1 o - o.amount_paid).sum
            = amt - (allocate amt (pendingOrders orders)).2 := by
        rw [deltaSum_orders_eq_pending orders hids _
          (allocate_ids_sub (pendingOrders orders) amt)]
        exact allocate_deltaSum (pendingOrders orders) amt hpnd
      have hlastmem := List.getLast_mem hnil
      have hlid := allocate_ids_sub (pendingOrders orders) amt _ hlastmem
      obtain ⟨o', ho', hid⟩ := List.mem_map.1 hlid
      have ho'or : o' ∈ orders := pendingOrders_sub orders o' ho'
      have h2 : (orders.map fun o =>
          if ((allocate amt (pendingOrders orders)).1.getLast hnil).orderId = o.id
          then (allocate amt (pendingOrders orders)).2 else 0).sum
            = (allocate amt (pendingOrders orders)).2 := by
        have hcongr : ∀ o ∈ orders,
            (if ((allocate amt (pendingOrders orders)).1.getLast hnil).orderId = o.id
             then (allocate amt (pendingOrders orders)).2 else 0)
              = (if o'.id = o.id then (allocate amt (pendingOrders orders)).2 else 0) := by
          intro o _
          rw [← hid]
        rw [List.map_congr_left hcongr]
        exact sum_ite_single orders hids o' ho'or _
      rw [h1, h2]
      ring
  · have hsave := savePaymentUpdates_of_rem_nonpos orders amt hrem
    have hrem0 : (allocate amt (pendingOrders orders)).2 = 0 :=
      le_antisymm (not_lt.1 hrem)
        (allocate_rem_nonneg (pendingOrders orders) amt hamt.le)
    have heach : ∀ o ∈ orders, finalPaid orders amt o - o.amount_paid
        = newAmountPaid (allocate amt (pendingOrders orders)).1 o - o.amount_paid := by
      intro o _
      rw [finalPaid, hsave]
    rw [List.map_congr_left heach,
      deltaSum_orders_eq_pending orders hids _
        (allocate_ids_sub (pendingOrders orders) amt),
      allocate_deltaSum (pendingOrders orders) amt hpnd, hrem0]
    ring

/-- C4: monotonicity — for every day-group with distinct order ids and every
accepted (positive) payment amount, no order's amount_paid decreases. -/
theorem payment_monotone (orders : List DailyOrder) (amt : ℚ)
    (hids : (orders.map (·.id)).Nodup) (hamt : 0 < amt) :
    ∀ o ∈ orders, o.amount_paid ≤ finalPaid orders amt o := by
  intro o ho
  exact newAmountPaid_ge_of_src orders hids _
    (savePaymentUpdates_src_ge orders amt hamt) o ho

/-- C10: frame property — whenever at least one order of the day-group has a
positive outstanding balance, every order whose balance was ≤ 0 before the
payment keeps its amount_paid unchanged, on every path of the allocator
(including the confirmed-overpayment leftover path). -/
theorem payment_frame (orders : List DailyOrder) (amt : ℚ)
    (hids : (orders.map (·.id)).Nodup) (hamt : 0 < amt)
    (hex : ∃ o ∈ orders, 0 < balanceOf o) :
    ∀ o ∈ orders, balanceOf o ≤ 0 → finalPaid orders amt o = o.amount_paid := by
  intro o ho hbal
  have hpne : pendingOrders orders ≠ [] := pendingOrders_ne_nil orders hex
  have hnotin_pend : o.id ∉ (pendingOrders orders).map (·.id) := by
    intro hin
    obtain ⟨o', ho', hid⟩ := List.mem_map.1 hin
    have hpos := pendingOrders_pos orders o' ho'
    have heq : o' = o :=
      List.inj_on_of_nodup_map hids (pendingOrders_sub orders o' ho') ho hid
    rw [heq] at hpos
    linarith
  have hnotin : o.id ∉ (savePaymentUpdates orders amt).map (·.orderId) := by
    intro hin
    obtain ⟨u, hu, hid⟩ := List.mem_map.1 hin
    by_cases hrem : 0 < (allocate amt (pendingOrders orders)).2
    · have hnil : (allocate amt (pendingOrders orders)).1 ≠ [] :=
        allocate_ne_nil (pendingOrders orders) amt hamt hpne
      rw [savePaymentUpdates_of_overflow orders amt hrem hnil] at hu
      have hm : u.orderId ∈ (addToLast (allocate amt (pendingOrders orders)).2
          (allocate amt (pendingOrders orders)).1).map (·.orderId) :=
        List.mem_map_of_mem _ hu
      rw [addToLast_ids] at hm
      obtain ⟨w, hw, hwid⟩ := List.mem_map.1 hm
      have hws := allocate_ids_sub (pendingOrders orders) amt w hw
      rw [hwid, hid] at hws
      exact hnotin_pend hws
    · rw [savePaymentUpdates_of_rem_nonpos orders amt hrem] at hu
      have hws := allocate_ids_sub (pendingOrders orders) amt u hu
      rw [hid] at hws
      exact hnotin_pend hws
  rw [finalPaid]
  exact newAmountPaid_not_mem _ o hnotin

/-- Evaluation of the specification's first worked example: payment 120 on
orders (total 100, paid 0, older) and (total 50, paid 0, newer). -/
lemma example_payment_120 :
    finalPaid exOrders 120 exO1 = 100 ∧ finalPaid exOrders 120 exO2 = 20 := by
  norm_num [finalPaid, savePaymentUpdates, allocate, pendingOrders, exOrders, exO1, exO2,
    balanceOf, newAmountPaid, List.insertionSort, List.orderedInsert, List.filter,
    List.find?, addToLast] <;> simp

/-- Evaluation of the specification's overpayment example: payment 200 on the
same orders; the leftover 50 lands on the last updated (newer) order. -/
lemma example_payment_200 :
    finalPaid exOrders 200 exO1 = 100 ∧ finalPaid exOrders 200 exO2 = 100 := by
  norm_num [finalPaid, savePaymentUpdates, allocate, pendingOrders, exOrders, exO1, exO2,
    balanceOf, newAmountPaid, List.insertionSort, List.orderedInsert, List.filter,
    List.find?, addToLast] <;> simp

/-- C2: oldest-first allocation — the allocator considers exactly the orders
with positive outstanding balance (as a permutation of the filtered group),
sorted ascending by creation timestamp; each considered order at position `i`
receives `min(its balance, remaining payment)` where the remaining payment is
the input amount less the balances of the strictly older pending orders; and
when the amount does not exceed the total outstanding balance this is also
the final amount_paid delta.  In particular payment 120 on the worked example
yields paid amounts 100 and 20. -/
theorem payment_oldest_first (orders : List DailyOrder) (amt : ℚ)
    (hids : (orders.map (·.id)).Nodup) (hamt : 0 < amt) :
    List.Perm (pendingOrders orders) (orders.filter fun o => 0 < balanceOf o)
    ∧ (pendingOrders orders).Sorted (fun a b => a.created_at ≤ b.created_at)
    ∧ (∀ i (h : i < (pendingOrders orders).length),
        newAmountPaid (allocate amt (pendingOrders orders)).1
            ((pendingOrders orders).get ⟨i, h⟩)
          = ((pendingOrders orders).get ⟨i, h⟩).amount_paid
            + min (balanceOf ((pendingOrders orders).get ⟨i, h⟩))
                (max 0 (amt - (((pendingOrders orders).take i).map balanceOf).sum)))
    ∧ (amt ≤ pendingBalanceSum orders →
        ∀ i (h : i < (pendingOrders orders).length),
          finalPaid orders amt ((pendingOrders orders).get ⟨i, h⟩)
            = ((pendingOrders orders).get ⟨i, h⟩).amount_paid
              + min (balanceOf ((pendingOrders orders).get ⟨i, h⟩))
                  (max 0 (amt - (((pendingOrders orders).take i).map balanceOf).sum)))
    ∧ finalPaid exOrders 120 exO1 = 100 ∧ finalPaid exOrders 120 exO2 = 20 := by
  have hpnd := pendingOrders_ids_nodup orders hids
  have hclosed := allocate_get (pendingOrders orders) amt hpnd (pendingOrders_pos orders)
  refine ⟨pendingOrders_perm orders, pendingOrders_sorted orders, hclosed, ?_,
    example_payment_120.1, example_payment_120.2⟩
  intro hle i h
  have hle' : amt ≤ ((pendingOrders orders).map balanceOf).sum := hle
  have hremle : (allocate amt (pendingOrders orders)).2 ≤ 0 :=
    allocate_rem_le (pendingOrders orders) amt (pendingOrders_pos orders) hle'
  have hsave := savePaymentUpdates_of_rem_nonpos orders amt (not_lt.2 hremle)
  rw [finalPaid, hsave]
  exact hclosed i h

/-- C3: overpayment leftover — when the confirmed amount exceeds the total
outstanding balance of a non-empty pending list, every pending order ends at
its total and the last pending order additionally receives the leftover; when
no order of the group has positive balance, the whole amount lands on the
most recently created order and every other order is untouched.  In
particular confirmed payment 200 on the worked example yields paid amounts
100 and 100. -/
theorem overpayment_leftover (orders : List DailyOrder) (amt : ℚ)
    (hids : (orders.map (·.id)).Nodup) (hamt : 0 < amt) :
    (∀ (hne : pendingOrders orders ≠ []), pendingBalanceSum orders < amt →
      ∀ o ∈ pendingOrders orders,
        finalPaid orders amt o
          = o.total_amount
            + (if ((pendingOrders orders).getLast hne).id = o.id
               then amt - pendingBalanceSum orders else 0))
    ∧ ((∀ o ∈ orders, balanceOf o ≤ 0) → orders ≠ [] →
        ∃ m, mostRecentOrder orders = some m ∧ m ∈ orders ∧
          (∀ o ∈ orders, o.created_at ≤ m.created_at) ∧
          finalPaid orders amt m = m.amount_paid + amt ∧
          (∀ o ∈ orders, o.id ≠ m.id → finalPaid orders amt o = o.amount_paid))
    ∧ finalPaid exOrders 200 exO1 = 100 ∧ finalPaid exOrders 200 exO2 = 100 := by
  have hpnd := pendingOrders_ids_nodup orders hids
  refine ⟨?_, ?_, example_payment_200.1, example_payment_200.2⟩
  · intro hne hover o ho
    have hover' : ((pendingOrders orders).map balanceOf).sum < amt := hover
    have hfull := allocate_full (pendingOrders orders) amt
      (pendingOrders_pos orders) hover'
    have hupne : (allocate amt (pendingOrders orders)).1 ≠ [] :=
      allocate_ne_nil _ amt hamt hne
    have hrem : 0 < (allocate amt (pendingOrders orders)).2 := by
      rw [hfull.2]
      linarith
    have hsave := savePaymentUpdates_of_overflow orders amt hrem hupne
    rw [finalPaid, hsave, hfull.1, hfull.2]
    rw [newAmountPaid_addToLast_map
      (amt - ((pendingOrders orders).map balanceOf).sum)
      (pendingOrders orders) hpnd hne o ho]
    rfl
  · intro hall hne
    have hpendnil : pendingOrders orders = [] := pendingOrders_eq_nil orders hall
    obtain ⟨m, hm, hmmem, hmax⟩ := mostRecentOrder_spec orders hne
    have hsave := savePaymentUpdates_of_no_pending orders amt hamt hpendnil hm
    refine ⟨m, hm, hmmem, hmax, ?_, ?_⟩
    · rw [finalPaid, hsave, newAmountPaid_cons_eq _ _ m rfl]
    · intro o ho hne'
      rw [finalPaid, hsave,
        newAmountPaid_cons_ne _ _ o (fun h => hne' h.symm), newAmountPaid_nil]

/-- The consolidated replacement order built by `handleSaveEdit`
(part_003 lines 180-195): all of the day's orders for the customer are
deleted and one order is reinserted with the edited items' recomputed total
and the summary's accumulated `amount_paid` preserved; no confirmation step
exists on this path. -/
structure NewOrder where
  customer_id : String
  customer_name : String
  date : Nat
  total_amount : ℚ
  amount_paid : ℚ
  status : String
deriving DecidableEq, Repr

/-- `handleSaveEdit`: `total_amount` is the sum of the edited items' totals,
`amount_paid` is `editingSummary.amountPaid` ("Preserve total payment"),
status is reset to `'pending'`. -/
def handleSaveEditOrder (customerId customerName : String) (date : Nat)
    (summaryAmountPaid : ℚ) (items : List OrderItem) : NewOrder :=
  { customer_id := customerId
    customer_name := customerName
    date := date
    total_amount := (items.map (·.total)).sum
    amount_paid := summaryAmountPaid
    status := "pending" }

/-- C6 (amended): on the payment-recording path, an amount within the group
balance (the only amounts that proceed without the overpayment confirmation)
never pushes any order with amount_paid ≤ total_amount above its total; the
replace-on-edit path preserves the summary's accumulated amount_paid
verbatim while recomputing total_amount from the edited items, with no
confirmation involved. -/
theorem no_unconfirmed_overpayment (orders : List DailyOrder) (amt : ℚ)
    (hids : (orders.map (·.id)).Nodup) (hamt : 0 < amt)
    (hle : amt ≤ groupBalance orders) :
    (∀ o ∈ orders, o.amount_paid ≤ o.total_amount →
      finalPaid orders amt o ≤ o.total_amount)
    ∧ (∀ (cid cname : String) (d : Nat) (p : ℚ) (items : List OrderItem),
        (handleSaveEditOrder cid cname d p items).amount_paid = p
        ∧ (handleSaveEditOrder cid cname d p items).total_amount
            = (items.map (·.total)).sum) := by
  refine ⟨?_, fun cid cname d p items => ⟨rfl, rfl⟩⟩
  intro o ho hpt
  have hle2 : amt ≤ pendingBalanceSum orders :=
    le_trans hle (groupBalance_le_pendingBalanceSum orders)
  have hle3 : amt ≤ ((pendingOrders orders).map balanceOf).sum := hle2
  have hremle := allocate_rem_le (pendingOrders orders) amt
    (pendingOrders_pos orders) hle3
  have hsave := savePaymentUpdates_of_rem_nonpos orders amt (not_lt.2 hremle)
  rw [finalPaid, hsave]
  refine newAmountPaid_le_of_src orders hids _ ?_ o ho hpt
  intro u hu
  obtain ⟨o', ho', hid, _, hub⟩ :=
    allocate_src (pendingOrders orders) (pendingOrders_pos orders) amt u hu
  exact ⟨o', pendingOrders_sub orders o' ho', hid, hub⟩

/-- Line item used in the edit-path counterexample: 2 L of milk at 10, line
total 20. -/
def exItem : OrderItem := ⟨"p1", "Milk", 2, "L", 10, 20⟩

/-- C6 counterexample: editing a day's orders down to a 20-total item list
while 100 is already paid produces, through `handleSaveEdit` (a path with no
confirmation anywhere), a consolidated order whose amount_paid 100 exceeds
its total_amount 20 — refuting the claim that amount_paid can exceed
total_amount only via explicitly confirmed overpayment. -/
theorem edit_overpayment_counterexample :
    (handleSaveEditOrder "cust" "C" 10 100 [exItem]).total_amount
      < (handleSaveEditOrder "cust" "C" 10 100 [exItem]).amount_paid := by
  norm_num [handleSaveEditOrder, exItem]

/-! ### Payment-amount validation (handleSavePayment lines 131-135) -/

/-- Values `parseFloat(paymentAmount)` can produce: NaN, ±Infinity, or a
finite number (embedded exactly). -/
inductive JSNum where
  | nan
  | posInf
  | negInf
  | finite (q : ℚ)
deriving DecidableEq, Repr

/-- JS `isNaN(x)`. -/
def JSNum.isNaN : JSNum → Bool
  | .nan => true
  | _ => false

/-- JS `x <= 0`: comparisons involving NaN are false; `Infinity <= 0` is
false; `-Infinity <= 0` is true; finite values compare exactly. -/
def JSNum.leZero : JSNum → Bool
  | .nan => false
  | .posInf => false
  | .negInf => true
  | .finite q => q ≤ 0

/-- true exactly on finite parsed values. -/
def JSNum.isFinite : JSNum → Bool
  | .finite _ => true
  | _ => false

/-- `handleSavePayment` lines 131-135: `if (isNaN(amountToPay) ||
amountToPay <= 0) { alert(...); return; }` — when this is true the handler
returns before `setIsSubmitting` and before any `updateOrder` call. -/
def paymentValidationRejects (x : JSNum) : Bool :=
  x.isNaN || x.leZero

/-- C5 counterexample: a parsed value of `+Infinity` (reachable, e.g. entering
`1e999` parses to Infinity) is NOT rejected by the validation although it is
not a finite number — refuting the claim that every non-positive-finite
parsed amount is rejected. -/
theorem payment_validation_counterexample :
    paymentValidationRejects JSNum.posInf = false
    ∧ JSNum.isFinite JSNum.posInf = false :=
  ⟨rfl, rfl⟩

/-- C5 (amended): the validation accepts (does not reject, so no validation
error and the handler proceeds) exactly the parsed values that are `+Infinity`
or positive finite; equivalently it rejects NaN, zero, negative values and
`-Infinity`, before any external call, but a parsed `+Infinity` slips
through. -/
theorem payment_validation_characterization (x : JSNum) :
    paymentValidationRejects x = false
      ↔ (x = JSNum.posInf ∨ ∃ q : ℚ, x = JSNum.finite q ∧ 0 < q) := by
  cases x with
  | nan => simp [paymentValidationRejects, JSNum.isNaN, JSNum.leZero]
  | posInf => simp [paymentValidationRejects, JSNum.isNaN, JSNum.leZero]
  | negInf => simp [paymentValidationRejects, JSNum.isNaN, JSNum.leZero]
  | finite q =>
    simp only [paymentValidationRejects, JSNum.isNaN, JSNum.leZero,
      Bool.false_or, decide_eq_false_iff_not, not_le]
    constructor
    · intro h
      exact Or.inr ⟨q, rfl, h⟩
    · rintro (h | ⟨q', hq', hpos⟩)
      · exact absurd h (by simp)
      · obtain rfl : q = q' := by injection hq'
        exact hpos

/-! ### The order aggregator (Orders page `customerDailySummaries` and
Statement page `getDailySummariesForStatement`, which share the same merge) -/

/-- The aggregation key: the code keys a record by the string
`` `${item.product_id}-${item.price}` ``; we embed it as the pair, which the
string encodes. -/
def itemKey (i : OrderItem) : String × ℚ := (i.product_id, i.price)

/-- One step of `allItems.forEach` against the keyed record
`aggregatedItems`: if an entry with the same (product, price) key exists,
its quantity and total grow in place (records preserve insertion order for
such keys), otherwise the item is appended as `{ ...item }`. -/
def mergeInsert : List OrderItem → OrderItem → List OrderItem
  | [], it => [it]
  | a :: rest, it =>
    if a.product_id = it.product_id ∧ a.price = it.price then
      { a with quantity := a.quantity + it.quantity,
               total := a.total + it.total } :: rest
    else a :: mergeInsert rest it

/-- The whole `forEach` fold over the concatenated items. -/
def mergeItems (items : List OrderItem) : List OrderItem :=
  items.foldl mergeInsert []

instance : IsTotal OrderItem (fun a b => a.product_name ≤ b.product_name) :=
  ⟨fun a b => le_total _ _⟩

instance : IsTrans OrderItem (fun a b => a.product_name ≤ b.product_name) :=
  ⟨fun _ _ _ h h' => le_trans h h'⟩

/-- `Object.values(aggregatedItems).sort((a,b) =>
a.product_name.localeCompare(b.product_name))`. -/
def aggregateItems (items : List OrderItem) : List OrderItem :=
  List.insertionSort (fun a b => a.product_name ≤ b.product_name)
    (mergeItems items)

/-- `summary.allItems.push(...order.items)` over the group. -/
def groupItems (orders : List DailyOrder) : List OrderItem :=
  orders.foldl (fun acc o => acc ++ o.items) []

/-- The per-group aggregate of `customerDailySummaries` (per customer on a
date) and `getDailySummariesForStatement` (per date for a customer): summed
total_amount and amount_paid, and the merged, name-sorted item rows. -/
structure GroupSummary where
  totalAmount : ℚ
  amountPaid : ℚ
  allItems : List OrderItem
deriving Repr

/-- Build the group summary from the group's orders. -/
def summarizeOrders (orders : List DailyOrder) : GroupSummary :=
  { totalAmount := (orders.map (·.total_amount)).sum
    amountPaid := (orders.map (·.amount_paid)).sum
    allItems := aggregateItems (groupItems orders) }

/-- Sum of `f` over the items of `l` having aggregation key `k`. -/
def keySum (f : OrderItem → ℚ) (l : List OrderItem) (k : String × ℚ) : ℚ :=
  ((l.filter fun i => itemKey i = k).map f).sum

lemma keySum_nil (f : OrderItem → ℚ) (k : String × ℚ) : keySum f [] k = 0 := rfl

lemma keySum_cons (f : OrderItem → ℚ) (i : OrderItem) (l : List OrderItem)
    (k : String × ℚ) :
    keySum f (i :: l) k = (if itemKey i = k then f i else 0) + keySum f l k := by
  simp only [keySum, List.filter_cons]
  by_cases h : itemKey i = k
  · simp [h]
  · simp [h]

lemma keySum_perm (f : OrderItem → ℚ) {l₁ l₂ : List OrderItem}
    (h : List.Perm l₁ l₂) (k : String × ℚ) : keySum f l₁ k = keySum f l₂ k :=
  ((h.filter _).map f).sum_eq

lemma itemKey_merge (a it : OrderItem) :
    itemKey { a with quantity := a.quantity + it.quantity,
                     total := a.total + it.total } = itemKey a := rfl

lemma mergeInsert_keyQuantity (it : OrderItem) (k : String × ℚ) :
    ∀ acc : List OrderItem,
      keySum (·.quantity) (mergeInsert acc it) k
        = keySum (·.quantity) acc k + (if itemKey it = k then it.quantity else 0)
  | [] => by
    rw [show mergeInsert [] it = [it] from rfl, keySum_cons, keySum_nil]
    ring
  | a :: rest => by
    by_cases hm : a.product_id = it.product_id ∧ a.price = it.price
    · have hkey : itemKey a = itemKey it := by
        rw [itemKey, itemKey, hm.1, hm.2]
      rw [show mergeInsert (a :: rest) it
          = { a with quantity := a.quantity + it.quantity,
                     total := a.total + it.total } :: rest from by
        rw [mergeInsert, if_pos hm]]
      rw [keySum_cons, keySum_cons, itemKey_merge, hkey]
      by_cases hk : itemKey it = k
      · rw [if_pos hk, if_pos hk, if_pos hk]
        ring
      · rw [if_neg hk, if_neg hk, if_neg hk]
        ring
    · rw [show mergeInsert (a :: rest) it = a :: mergeInsert rest it from by
        rw [mergeInsert, if_neg hm]]
      rw [keySum_cons, keySum_cons, mergeInsert_keyQuantity it k rest]
      ring

lemma mergeInsert_keyTotal (it : OrderItem) (k : String × ℚ) :
    ∀ acc : List OrderItem,
      keySum (·.total) (mergeInsert acc it) k
        = keySum (·.total) acc k + (if itemKey it = k then it.total else 0)
  | [] => by
    rw [show mergeInsert [] it = [it] from rfl, keySum_cons, keySum_nil]
    ring
  | a :: rest => by
    by_cases hm : a.product_id = it.product_id ∧ a.price = it.price
    · have hkey : itemKey a = itemKey it := by
        rw [itemKey, itemKey, hm.1, hm.2]
      rw [show mergeInsert (a :: rest) it
          = { a with quantity := a.quantity + it.quantity,
                     total := a.total + it.total } :: rest from by
        rw [mergeInsert, if_pos hm]]
      rw [keySum_cons, keySum_cons, itemKey_merge, hkey]
      by_cases hk : itemKey it = k
      · rw [if_pos hk, if_pos hk, if_pos hk]
        ring
      · rw [if_neg hk, if_neg hk, if_neg hk]
        ring
    · rw [show mergeInsert (a :: rest) it = a :: mergeInsert rest it from by
        rw [mergeInsert, if_neg hm]]
      rw [keySum_cons, keySum_cons, mergeInsert_keyTotal it k rest]
      ring

lemma mergeInsert_keys (it : OrderItem) :
    ∀ acc : List OrderItem,
      (mergeInsert acc it).map itemKey
        = if itemKey it ∈ acc.map itemKey then acc.map itemKey
          else acc.map itemKey ++ [itemKey it]
  | [] => by simp [mergeInsert]
  | a :: rest => by
    by_cases hm : a.product_id = it.product_id ∧ a.price = it.price
    · have hkey : itemKey a = itemKey it := by
        rw [itemKey, itemKey, hm.1, hm.2]
      have hmem : itemKey it ∈ (a :: rest).map itemKey := by
        rw [List.map_cons, hkey]
        exact List.mem_cons_self _ _
      rw [show mergeInsert (a :: rest) it
          = { a with quantity := a.quantity + it.quantity,
                     total := a.total + it.total } :: rest from by
        rw [mergeInsert, if_pos hm]]
      rw [if_pos hmem, List.map_cons, List.map_cons, itemKey_merge]
    · have hkey : itemKey a ≠ itemKey it := by
        intro h
        rw [itemKey, itemKey, Prod.mk.injEq] at h
        exact hm h
      rw [show mergeInsert (a :: rest) it = a :: mergeInsert rest it from by
        rw [mergeInsert, if_neg hm]]
      rw [List.map_cons, mergeInsert_keys it rest, List.map_cons]
      by_cases hmem : itemKey it ∈ rest.map itemKey
      · rw [if_pos hmem, if_pos (List.mem_cons_of_mem _ hmem)]
      · have houter : itemKey it ∉ itemKey a :: rest.map itemKey := by
          intro h
          rcases List.mem_cons.1 h with h' | h'
          · exact hkey h'.symm
          · exact hmem h'
        rw [if_neg hmem, if_neg houter]
        rfl

lemma mergeItems_go (items : List OrderItem) :
    ∀ acc : List OrderItem, (acc.map itemKey).Nodup →
      ((items.foldl mergeInsert acc).map itemKey).Nodup
      ∧ (∀ k, keySum (·.quantity) (items.foldl mergeInsert acc) k
            = keySum (·.quantity) acc k + keySum (·.quantity) items k)
      ∧ (∀ k, keySum (·.total) (items.foldl mergeInsert acc) k
            = keySum (·.total) acc k + keySum (·.total) items k)
      ∧ (∀ k, k ∈ (items.foldl mergeInsert acc).map itemKey
            ↔ k ∈ acc.map itemKey ∨ k ∈ items.map itemKey) := by
  induction items with
  | nil =>
    intro acc hnd
    refine ⟨hnd, ?_, ?_, ?_⟩ <;> intro k <;> simp [keySum_nil]
  | cons it rest ih =>
    intro acc hnd
    have hfold : (it :: rest).foldl mergeInsert acc
        = rest.foldl mergeInsert (mergeInsert acc it) := rfl
    have hnd' : ((mergeInsert acc it).map itemKey).Nodup := by
      rw [mergeInsert_keys]
      by_cases hmem : itemKey it ∈ acc.map itemKey
      · rw [if_pos hmem]
        exact hnd
      · rw [if_neg hmem]
        rw [List.nodup_append]
        refine ⟨hnd, List.nodup_singleton _, ?_⟩
        intro x hx hx'
        rw [List.mem_singleton] at hx'
        rw [hx'] at hx
        exact hmem hx
    obtain ⟨h1, h2, h3, h4⟩ := ih (mergeInsert acc it) hnd'
    rw [hfold]
    refine ⟨h1, ?_, ?_, ?_⟩
    · intro k
      rw [h2 k, mergeInsert_keyQuantity it k acc, keySum_cons]
      ring
    · intro k
      rw [h3 k, mergeInsert_keyTotal it k acc, keySum_cons]
      ring
    · intro k
      rw [h4 k, mergeInsert_keys it acc, List.map_cons]
      by_cases hmem : itemKey it ∈ acc.map itemKey
      · rw [if_pos hmem]
        constructor
        · rintro (h | h)
          · exact Or.inl h
          · exact Or.inr (List.mem_cons_of_mem _ h)
        · rintro (h | h)
          · exact Or.inl h
          · rcases List.mem_cons.1 h with h' | h'
            · exact Or.inl (h' ▸ hmem)
            · exact Or.inr h'
      · rw [if_neg hmem]
        simp only [List.mem_append, List.mem_singleton, List.mem_cons]
        tauto

lemma aggregateItems_spec (items : List OrderItem) :
    ((aggregateItems items).map itemKey).Nodup
    ∧ (∀ k, keySum (·.quantity) (aggregateItems items) k
          = keySum (·.quantity) items k)
    ∧ (∀ k, keySum (·.total) (aggregateItems items) k
          = keySum (·.total) items k)
    ∧ (∀ k, k ∈ (aggregateItems items).map itemKey ↔ k ∈ items.map itemKey)
    ∧ (aggregateItems items).Sorted (fun a b => a.product_name ≤ b.product_name) := by
  have hperm : List.Perm (aggregateItems items) (mergeItems items) :=
    List.perm_insertionSort _ _
  obtain ⟨h1, h2, h3, h4⟩ := mergeItems_go items [] (by simp)
  refine ⟨?_, ?_, ?_, ?_, List.sorted_insertionSort _ _⟩
  · exact (hperm.map itemKey).nodup_iff.2 h1
  · intro k
    rw [keySum_perm _ hperm k, mergeItems] at *
    rw [h2 k, keySum_nil]
    ring
  · intro k
    rw [keySum_perm _ hperm k, mergeItems] at *
    rw [h3 k, keySum_nil]
    ring
  · intro k
    rw [(hperm.map itemKey).mem_iff, mergeItems]
    rw [h4 k]
    simp

/-- C7: aggregator merge correctness — for every group of orders, each
(product id, unit price) key's merged quantity and total equal the sums of
the input quantities and line totals for that key (so rows with the same
product at different prices stay separate), each key occurs on exactly one
merged row, a key is present among the merged rows exactly when it occurs in
the input items, the rows are sorted by product name, and the group totals
are the sums of total_amount and amount_paid over the grouped orders. -/
theorem aggregator_merge (orders : List DailyOrder) :
    (∀ k : String × ℚ,
        keySum (·.quantity) (summarizeOrders orders).allItems k
          = keySum (·.quantity) (groupItems orders) k
      ∧ keySum (·.total) (summarizeOrders orders).allItems k
          = keySum (·.total) (groupItems orders) k
      ∧ (k ∈ (summarizeOrders orders).allItems.map itemKey
          ↔ k ∈ (groupItems orders).map itemKey))
    ∧ ((summarizeOrders orders).allItems.map itemKey).Nodup
    ∧ (summarizeOrders orders).allItems.Sorted
        (fun a b => a.product_name ≤ b.product_name)
    ∧ (summarizeOrders orders).totalAmount = (orders.map (·.total_amount)).sum
    ∧ (summarizeOrders orders).amountPaid = (orders.map (·.amount_paid)).sum := by
  obtain ⟨h1, h2, h3, h4, h5⟩ := aggregateItems_spec (groupItems orders)
  exact ⟨fun k => ⟨h2 k, h3 k, h4 k⟩, h1, h5, rfl, rfl⟩

/-! ### Box-requirement calculator (Boxes page `calculateBoxNeeds`) -/

/-- Truncation toward zero, the rounding JS `%` applies to the quotient. -/
def jsTrunc (x : ℚ) : ℤ := if 0 ≤ x then ⌊x⌋ else ⌈x⌉

/-- JS remainder `n % d = n - d * trunc(n / d)` (sign follows the dividend). -/
def jsRem (n d : ℚ) : ℚ := n - d * (jsTrunc (n / d) : ℚ)

/-- The record returned by `calculateBoxNeeds`. -/
structure BoxCalc where
  fullBoxes : ℚ
  remainingPieces : ℚ
  neededForNextBox : ℚ
deriving DecidableEq, Repr

/-- `calculateBoxNeeds(totalQuantity, piecesPerBox)`: `null` when
`piecesPerBox <= 0`; otherwise `fullBoxes = Math.floor(total/piecesPerBox)`,
`remainingPieces = total % piecesPerBox`, and `neededForNextBox = 0` when the
remainder is `0`, else `piecesPerBox - remainingPieces`. -/
def calculateBoxNeeds (totalQuantity piecesPerBox : ℚ) : Option BoxCalc :=
  if piecesPerBox ≤ 0 then none
  else
    some { fullBoxes := ((⌊totalQuantity / piecesPerBox⌋ : ℤ) : ℚ)
           remainingPieces := jsRem totalQuantity piecesPerBox
           neededForNextBox :=
             if jsRem totalQuantity piecesPerBox = 0 then 0
             else piecesPerBox - jsRem totalQuantity piecesPerBox }

/-- C8 (amended): for every nonnegative totalQuantity, the calculator is not
performed when unitsPerBox ≤ 0 (no division by zero), and for unitsPerBox > 0
it returns fullBoxes = ⌊total/unitsPerBox⌋ and a remainder in [0, unitsPerBox)
with fullBoxes × unitsPerBox + remainingPieces = totalQuantity and
neededForNextBox = 0 exactly when the remainder is 0 (else
unitsPerBox − remainder).  For negative totalQuantity the JS `%` truncates
toward zero while `Math.floor` rounds down, and the conservation identity
fails (see the counterexample). -/
theorem box_calculator (q p : ℚ) (hq : 0 ≤ q) :
    (p ≤ 0 → calculateBoxNeeds q p = none)
    ∧ (0 < p → ∀ c : BoxCalc, calculateBoxNeeds q p = some c →
        c.fullBoxes = ((⌊q / p⌋ : ℤ) : ℚ)
        ∧ c.fullBoxes * p + c.remainingPieces = q
        ∧ 0 ≤ c.remainingPieces ∧ c.remainingPieces < p
        ∧ (c.neededForNextBox = 0 ↔ c.remainingPieces = 0)
        ∧ (c.remainingPieces ≠ 0 → c.neededForNextBox = p - c.remainingPieces)) := by
  constructor
  · intro hp
    simp [calculateBoxNeeds, hp]
  · intro hp c hc
    have hple : ¬ p ≤ 0 := not_le.2 hp
    rw [calculateBoxNeeds, if_neg hple, Option.some.injEq] at hc
    have hdiv : 0 ≤ q / p := div_nonneg hq hp.le
    have htr : jsTrunc (q / p) = ⌊q / p⌋ := by rw [jsTrunc, if_pos hdiv]
    have hpne : p ≠ 0 := ne_of_gt hp
    have hrem : jsRem q p = p * Int.fract (q / p) := by
      rw [jsRem, htr, Int.fract, mul_sub, mul_div_cancel₀ q hpne]
    have hr0 : 0 ≤ jsRem q p := by
      rw [hrem]
      exact mul_nonneg hp.le (Int.fract_nonneg _)
    have hrlt : jsRem q p < p := by
      rw [hrem]
      have := mul_lt_mul_of_pos_left (Int.fract_lt_one (q / p)) hp
      simpa using this
    subst hc
    refine ⟨rfl, ?_, hr0, hrlt, ?_, ?_⟩
    · show ((⌊q / p⌋ : ℤ) : ℚ) * p + jsRem q p = q
      rw [jsRem, htr]
      ring
    · show (if jsRem q p = 0 then (0 : ℚ) else p - jsRem q p) = 0 ↔ jsRem q p = 0
      by_cases h : jsRem q p = 0
      · simp [h]
      · have hne : p - jsRem q p ≠ 0 := by
          intro he
          have : jsRem q p = p := by linarith
          linarith
        simp [h, hne]
    · intro h
      show (if jsRem q p = 0 then (0 : ℚ) else p - jsRem q p) = p - jsRem q p
      rw [if_neg h]

/-- The record the code computes at totalQuantity −3, unitsPerBox 5:
`Math.floor(-3/5) = -1` but `-3 % 5 = -3` (sign of the dividend). -/
def boxNeg : BoxCalc := ⟨-1, -3, 8⟩

/-- C8 counterexample: at totalQuantity = −3 and unitsPerBox = 5 the code
returns fullBoxes = −1 and remainingPieces = −3, and
fullBoxes × unitsPerBox + remainingPieces = −8 ≠ −3: the claimed conservation
identity fails for a negative totalQuantity, because `Math.floor` rounds down
while `%` truncates toward zero. -/
theorem box_conservation_counterexample :
    calculateBoxNeeds (-3) 5 = some boxNeg
    ∧ boxNeg.fullBoxes * 5 + boxNeg.remainingPieces = -8
    ∧ boxNeg.fullBoxes * 5 + boxNeg.remainingPieces ≠ (-3 : ℚ) := by
  refine ⟨?_, by norm_num [boxNeg], by norm_num [boxNeg]⟩
  rw [calculateBoxNeeds, if_neg (by norm_num : ¬ (5 : ℚ) ≤ 0)]
  have htr : jsTrunc ((-3 : ℚ) / 5) = 0 := by
    rw [jsTrunc, if_neg (by norm_num)]
    norm_num
  have hrem : jsRem (-3) 5 = -3 := by
    rw [jsRem, htr]
    norm_num
  have hfl : ((⌊(-3 : ℚ) / 5⌋ : ℤ) : ℚ) = -1 := by norm_num
  rw [boxNeg, Option.some.injEq, BoxCalc.mk.injEq]
  refine ⟨hfl, hrem, ?_⟩
  rw [hrem]
  norm_num

/-! ### Statement generator (Statement page `generateStatementData`) -/

/-- The order filter of `generateStatementData`: the order's calendar day
lies within `[start, end]` (the code normalizes all three dates to UTC
midnight, so the comparison is by calendar day, embedded as a day number)
and the customer matches (`forCustomerId === 'all'`, embedded as `none`, or
equality). -/
def inStatementRange (cid : Option String) (startD endD : Nat)
    (o : DailyOrder) : Bool :=
  (decide (startD ≤ o.date) && decide (o.date ≤ endD))
    && (match cid with
        | none => true
        | some c => c == o.customer_id)

/-- `filteredOrders`. -/
def statementOrders (orders : List DailyOrder) (cid : Option String)
    (startD endD : Nat) : List DailyOrder :=
  orders.filter (inStatementRange cid startD endD)

/-- One step of the `reduce` that groups `filteredOrders` by customer id:
record keys appear in first-encounter order. -/
def addKey (ks : List String) (o : DailyOrder) : List String :=
  if o.customer_id ∈ ks then ks else ks ++ [o.customer_id]

/-- The customer ids of the grouped record, in first-encounter order. -/
def customerKeys (l : List DailyOrder) : List String :=
  l.foldl addKey []

/-- One entry of `customerStatements`. -/
structure CustomerStatement where
  customerId : String
  customerName : String
  orders : List DailyOrder
  totalAmount : ℚ
  totalPaid : ℚ
  pendingAmount : ℚ
deriving Repr

instance : IsTotal DailyOrder (fun a b => a.date ≤ b.date) :=
  ⟨fun a b => Nat.le_total _ _⟩

instance : IsTrans DailyOrder (fun a b => a.date ≤ b.date) :=
  ⟨fun _ _ _ h h' => Nat.le_trans h h'⟩

instance : IsTotal CustomerStatement (fun a b => a.customerName ≤ b.customerName) :=
  ⟨fun a b => le_total _ _⟩

instance : IsTrans CustomerStatement (fun a b => a.customerName ≤ b.customerName) :=
  ⟨fun _ _ _ h h' => le_trans h h'⟩

/-- The per-customer statement for key `k`: sums of total_amount and
amount_paid over the customer's filtered orders, pending as their
difference, name from the first order (`'Unknown'` if the group were empty),
orders sorted ascending by date. -/
def buildCustomerStatement (filtered : List DailyOrder) (k : String) :
    CustomerStatement :=
  { customerId := k
    customerName :=
      (((filtered.filter fun o => o.customer_id == k).head?).map
        (·.customer_name)).getD "Unknown"
    orders := List.insertionSort (fun a b => a.date ≤ b.date)
      (filtered.filter fun o => o.customer_id == k)
    totalAmount :=
      ((filtered.filter fun o => o.customer_id == k).map (·.total_amount)).sum
    totalPaid :=
      ((filtered.filter fun o => o.customer_id == k).map (·.amount_paid)).sum
    pendingAmount :=
      ((filtered.filter fun o => o.customer_id == k).map (·.total_amount)).sum
        - ((filtered.filter fun o => o.customer_id == k).map (·.amount_paid)).sum }

/-- The result record of `generateStatementData`. -/
structure StatementResult where
  customerStatements : List CustomerStatement
  grandTotalAmount : ℚ
  grandTotalPaid : ℚ
  grandTotalPending : ℚ
  totalOrders : Nat
deriving Repr

/-- `generateStatementData(forCustomerId, dateRange)`: filter, group by
customer, build per-customer statements, reduce grand totals over them and
sort the statements by customer name. -/
def generateStatementData (orders : List DailyOrder) (cid : Option String)
    (startD endD : Nat) : StatementResult :=
  let filtered := statementOrders orders cid startD endD
  let css := (customerKeys filtered).map (buildCustomerStatement filtered)
  let gA := (css.map (·.totalAmount)).sum
  let gP := (css.map (·.totalPaid)).sum
  { customerStatements :=
      List.insertionSort (fun a b => a.customerName ≤ b.customerName) css
    grandTotalAmount := gA
    grandTotalPaid := gP
    grandTotalPending := gA - gP
    totalOrders := filtered.length }

lemma addKey_nodup (ks : List String) (o : DailyOrder) (h : ks.Nodup) :
    (addKey ks o).Nodup := by
  rw [addKey]
  by_cases hm : o.customer_id ∈ ks
  · rw [if_pos hm]
    exact h
  · rw [if_neg hm, List.nodup_append]
    refine ⟨h, List.nodup_singleton _, ?_⟩
    intro x hx hx'
    rw [List.mem_singleton] at hx'
    rw [hx'] at hx
    exact hm hx

lemma addKey_mono (ks : List String) (o : DailyOrder) :
    ∀ x ∈ ks, x ∈ addKey ks o := by
  intro x hx
  rw [addKey]
  by_cases hm : o.customer_id ∈ ks
  · rw [if_pos hm]
    exact hx
  · rw [if_neg hm]
    exact List.mem_append_left _ hx

lemma addKey_self (ks : List String) (o : DailyOrder) :
    o.customer_id ∈ addKey ks o := by
  rw [addKey]
  by_cases hm : o.customer_id ∈ ks
  · rw [if_pos hm]
    exact hm
  · rw [if_neg hm]
    exact List.mem_append_right _ (List.mem_singleton_self _)

lemma foldl_addKey_nodup :
    ∀ (l : List DailyOrder) (ks : List String), ks.Nodup → (l.foldl addKey ks).Nodup
  | [], _, h => h
  | o :: rest, ks, h => foldl_addKey_nodup rest (addKey ks o) (addKey_nodup ks o h)

lemma foldl_addKey_mono :
    ∀ (l : List DailyOrder) (ks : List String) (x : String),
      x ∈ ks → x ∈ l.foldl addKey ks
  | [], _, _, h => h
  | o :: rest, ks, x, h =>
    foldl_addKey_mono rest (addKey ks o) x (addKey_mono ks o x h)

lemma foldl_addKey_complete :
    ∀ (l : List DailyOrder) (ks : List String),
      ∀ o ∈ l, o.customer_id ∈ l.foldl addKey ks := by
  intro l
  induction l with
  | nil => intro ks o ho; exact absurd ho (List.not_mem_nil o)
  | cons a rest ih =>
    intro ks o ho
    rcases List.mem_cons.1 ho with rfl | ho'
    · exact foldl_addKey_mono rest (addKey ks o) _ (addKey_self ks o)
    · exact ih (addKey ks a) o ho'

lemma customerKeys_nodup (l : List DailyOrder) : (customerKeys l).Nodup :=
  foldl_addKey_nodup l [] List.nodup_nil

lemma customerKeys_complete (l : List DailyOrder) :
    ∀ o ∈ l, o.customer_id ∈ customerKeys l :=
  foldl_addKey_complete l []

/-- C9: statement generation — the generator selects exactly the orders whose
calendar day lies within the inclusive range and matches the customer
filter; each produced customer statement carries the sums of total_amount
and amount_paid over that customer's selected orders with pending as their
difference; the grand totals are the sums over all selected orders and
`totalOrders` their count; and an empty selection yields an empty customer
list and zero totals rather than an error. -/
theorem statement_generation (orders : List DailyOrder) (cid : Option String)
    (startD endD : Nat) :
    (∀ o, o ∈ statementOrders orders cid startD endD
        ↔ o ∈ orders ∧ (startD ≤ o.date ∧ o.date ≤ endD)
          ∧ (cid = none ∨ cid = some o.customer_id))
    ∧ (∀ cs ∈ (generateStatementData orders cid startD endD).customerStatements,
        cs.totalAmount = (((statementOrders orders cid startD endD).filter
            fun o => o.customer_id == cs.customerId).map (·.total_amount)).sum
        ∧ cs.totalPaid = (((statementOrders orders cid startD endD).filter
            fun o => o.customer_id == cs.customerId).map (·.amount_paid)).sum
        ∧ cs.pendingAmount = cs.totalAmount - cs.totalPaid)
    ∧ (generateStatementData orders cid startD endD).grandTotalAmount
        = ((statementOrders orders cid startD endD).map (·.total_amount)).sum
    ∧ (generateStatementData orders cid startD endD).grandTotalPaid
        = ((statementOrders orders cid startD endD).map (·.amount_paid)).sum
    ∧ (generateStatementData orders cid startD endD).grandTotalPending
        = ((statementOrders orders cid startD endD).map (·.total_amount)).sum
          - ((statementOrders orders cid startD endD).map (·.amount_paid)).sum
    ∧ (generateStatementData orders cid startD endD).totalOrders
        = (statementOrders orders cid startD endD).length
    ∧ (statementOrders orders cid startD endD = [] →
        (generateStatementData orders cid startD endD).customerStatements = []
        ∧ (generateStatementData orders cid startD endD).grandTotalAmount = 0
        ∧ (generateStatementData orders cid startD endD).grandTotalPaid = 0
        ∧ (generateStatementData orders cid startD endD).grandTotalPending = 0
        ∧ (generateStatementData orders cid startD endD).totalOrders = 0) := by
  have hga : (generateStatementData orders cid startD endD).grandTotalAmount
      = ((statementOrders orders cid startD endD).map (·.total_amount)).sum := by
    show (((customerKeys (statementOrders orders cid startD endD)).map
        (buildCustomerStatement (statementOrders orders cid startD endD))).map
          (·.totalAmount)).sum = _
    rw [List.map_map]
    exact sum_partition (·.customer_id) (·.total_amount)
      (customerKeys (statementOrders orders cid startD endD))
      (statementOrders orders cid startD endD)
      (customerKeys_nodup _) (customerKeys_complete _)
  have hgp : (generateStatementData orders cid startD endD).grandTotalPaid
      = ((statementOrders orders cid startD endD).map (·.amount_paid)).sum := by
    show (((customerKeys (statementOrders orders cid startD endD)).map
        (buildCustomerStatement (statementOrders orders cid startD endD))).map
          (·.totalPaid)).sum = _
    rw [List.map_map]
    exact sum_partition (·.customer_id) (·.amount_paid)
      (customerKeys (statementOrders orders cid startD endD))
      (statementOrders orders cid startD endD)
      (customerKeys_nodup _) (customerKeys_complete _)
  refine ⟨?_, ?_, hga, hgp, ?_, rfl, ?_⟩
  · intro o
    rw [statementOrders, List.mem_filter]
    cases cid with
    | none => simp [inStatementRange, and_assoc]
    | some c =>
      simp only [inStatementRange, Bool.and_eq_true, decide_eq_true_eq,
        beq_iff_eq, Option.some.injEq, false_or]
      tauto
  · intro cs hcs
    have hperm : List.Perm
        ((generateStatementData orders cid startD endD).customerStatements)
        ((customerKeys (statementOrders orders cid startD endD)).map
          (buildCustomerStatement (statementOrders orders cid startD endD))) :=
      List.perm_insertionSort _ _
    have hcs' := hperm.subset hcs
    obtain ⟨k, _, rfl⟩ := List.mem_map.1 hcs'
    exact ⟨rfl, rfl, rfl⟩
  · show (generateStatementData orders cid startD endD).grandTotalAmount
        - (generateStatementData orders cid startD endD).grandTotalPaid = _
    rw [hga, hgp]
  · intro hfil
    have hkeys : customerKeys (statementOrders orders cid startD endD) = [] := by
      rw [hfil]
      rfl
    refine ⟨?_, ?_, ?_, ?_, ?_⟩
    · show List.insertionSort _ ((customerKeys
          (statementOrders orders cid startD endD)).map _) = []
      rw [hkeys]
      rfl
    · rw [hga, hfil]
      rfl
    · rw [hgp, hfil]
      rfl
    · show (generateStatementData orders cid startD endD).grandTotalAmount
          - (generateStatementData orders cid startD endD).grandTotalPaid = 0
      rw [hga, hgp, hfil]
      norm_num
    · show (statementOrders orders cid startD endD).length = 0
      rw [hfil]
      rfl

/-! ### Witnesses: the claim theorems applied at concrete inputs -/

theorem payment_conservation_witness :
    (exOrders ≠ [] ∧ (exOrders.map (·.id)).Nodup ∧ (0 : ℚ) < 120)
    ∧ (exOrders.map fun o => finalPaid exOrders 120 o - o.amount_paid).sum = 120 := by
  have h1 : exOrders ≠ [] := by simp [exOrders]
  have h2 : (exOrders.map (·.id)).Nodup := by simp [exOrders, exO1, exO2]
  have h3 : (0 : ℚ) < 120 := by norm_num
  exact ⟨⟨h1, h2, h3⟩, payment_conservation exOrders 120 h1 h2 h3⟩

theorem payment_oldest_first_witness :
    ((exOrders.map (·.id)).Nodup ∧ (0 : ℚ) < 120)
    ∧ (finalPaid exOrders 120 exO1 = 100 ∧ finalPaid exOrders 120 exO2 = 20) := by
  have h2 : (exOrders.map (·.id)).Nodup := by simp [exOrders, exO1, exO2]
  have h3 : (0 : ℚ) < 120 := by norm_num
  exact ⟨⟨h2, h3⟩, (payment_oldest_first exOrders 120 h2 h3).2.2.2.2⟩

theorem overpayment_leftover_witness :
    ((exOrders.map (·.id)).Nodup ∧ (0 : ℚ) < 200)
    ∧ (finalPaid exOrders 200 exO1 = 100 ∧ finalPaid exOrders 200 exO2 = 100) := by
  have h2 : (exOrders.map (·.id)).Nodup := by simp [exOrders, exO1, exO2]
  have h3 : (0 : ℚ) < 200 := by norm_num
  exact ⟨⟨h2, h3⟩, (overpayment_leftover exOrders 200 h2 h3).2.2⟩

theorem payment_monotone_witness :
    ((exOrders.map (·.id)).Nodup ∧ (0 : ℚ) < 120)
    ∧ (∀ o ∈ exOrders, o.amount_paid ≤ finalPaid exOrders 120 o) := by
  have h2 : (exOrders.map (·.id)).Nodup := by simp [exOrders, exO1, exO2]
  have h3 : (0 : ℚ) < 120 := by norm_num
  exact ⟨⟨h2, h3⟩, payment_monotone exOrders 120 h2 h3⟩

theorem no_unconfirmed_overpayment_witness :
    ((exOrders.map (·.id)).Nodup ∧ (0 : ℚ) < 150 ∧ (150 : ℚ) ≤ groupBalance exOrders)
    ∧ (∀ o ∈ exOrders, o.amount_paid ≤ o.total_amount →
        finalPaid exOrders 150 o ≤ o.total_amount) := by
  have h2 : (exOrders.map (·.id)).Nodup := by simp [exOrders, exO1, exO2]
  have h3 : (0 : ℚ) < 150 := by norm_num
  have h4 : (150 : ℚ) ≤ groupBalance exOrders := by
    norm_num [groupBalance, groupTotalAmount, groupTotalPaid, exOrders, exO1, exO2]
  exact ⟨⟨h2, h3, h4⟩, (no_unconfirmed_overpayment exOrders 150 h2 h3 h4).1⟩

theorem payment_frame_witness :
    ((exOrders3.map (·.id)).Nodup ∧ (0 : ℚ) < 120
      ∧ (∃ o ∈ exOrders3, 0 < balanceOf o)
      ∧ exO0 ∈ exOrders3 ∧ balanceOf exO0 ≤ 0)
    ∧ finalPaid exOrders3 120 exO0 = exO0.amount_paid := by
  have h2 : (exOrders3.map (·.id)).Nodup := by simp [exOrders3, exO0, exO1, exO2]
  have h3 : (0 : ℚ) < 120 := by norm_num
  have h4 : ∃ o ∈ exOrders3, 0 < balanceOf o := by
    refine ⟨exO1, by simp [exOrders3], ?_⟩
    norm_num [balanceOf, exO1]
  have h5 : exO0 ∈ exOrders3 := by simp [exOrders3]
  have h6 : balanceOf exO0 ≤ 0 := by norm_num [balanceOf, exO0]
  exact ⟨⟨h2, h3, h4, h5, h6⟩, payment_frame exOrders3 120 h2 h3 h4 exO0 h5 h6⟩

/-- The record the code computes at totalQuantity 23, unitsPerBox 5 (the
specification's box example). -/
def exBox : BoxCalc := ⟨4, 3, 2⟩

theorem box_calculator_witness :
    ((0 : ℚ) ≤ 23 ∧ (0 : ℚ) < 5 ∧ calculateBoxNeeds 23 5 = some exBox)
    ∧ (exBox.fullBoxes = ((⌊(23 : ℚ) / 5⌋ : ℤ) : ℚ)
       ∧ exBox.fullBoxes * 5 + exBox.remainingPieces = 23
       ∧ (exBox.neededForNextBox = 0 ↔ exBox.remainingPieces = 0)) := by
  have h1 : (0 : ℚ) ≤ 23 := by norm_num
  have h2 : (0 : ℚ) < 5 := by norm_num
  have h3 : calculateBoxNeeds 23 5 = some exBox := by
    rw [calculateBoxNeeds, if_neg (by norm_num : ¬ (5 : ℚ) ≤ 0)]
    have htr : jsTrunc ((23 : ℚ) / 5) = 4 := by
      rw [jsTrunc, if_pos (by norm_num)]
      norm_num
    have hrem : jsRem 23 5 = 3 := by
      rw [jsRem, htr]
      norm_num
    rw [exBox, Option.some.injEq, BoxCalc.mk.injEq]
    refine ⟨by norm_num, hrem, ?_⟩
    rw [hrem]
    norm_num
  have hmain := (box_calculator 23 5 h1).2 h2 exBox h3
  exact ⟨⟨h1, h2, h3⟩, hmain.1, hmain.2.1, hmain.2.2.2.2.1⟩

theorem statement_generation_witness :
    statementOrders [] none 0 0 = []
    ∧ ((generateStatementData [] none 0 0).customerStatements = []
      ∧ (generateStatementData [] none 0 0).grandTotalAmount = 0
      ∧ (generateStatementData [] none 0 0).grandTotalPaid = 0
      ∧ (generateStatementData [] none 0 0).grandTotalPending = 0
      ∧ (generateStatementData [] none 0 0).totalOrders = 0) :=
  ⟨rfl, (statement_generation [] none 0 0).2.2.2.2.2.2 rfl⟩

end JayGoga
